import Mathlib

/-!
Verification of the particle-collision solver (`src/physics/physics.cpp`).

The C++ code is shallowly embedded.  Exact rational arithmetic (`ℚ`) models
the float computations that involve only field operations, comparisons and
int casts (integration, the box-container constraint, the fixed grid and the
spatial-hash build); real arithmetic (`ℝ`, with `Real.sqrt` for
`glm::length`) models the pairwise collision resolution.  `std::vector` is
modelled by `List` with `List.set` for element writes and `List.getD` for
element reads (all reads are made under in-bounds hypotheses matching the
C++ preconditions).  The `(int32_t)`/`(uint32_t)` casts of non-negative
float quotients are modelled by `Int.toNat ∘ Int.floor`, which agrees with
C truncation-toward-zero on the non-negative in-grid domain assumed by the
claims.
-/

/-- Two-dimensional vector over `ℚ` (models `glm::vec2` where only field
operations are involved). -/
@[ext]
structure Vec2 where
  x : ℚ
  y : ℚ
deriving DecidableEq

instance : Add Vec2 := ⟨fun a b => ⟨a.x + b.x, a.y + b.y⟩⟩

instance : Sub Vec2 := ⟨fun a b => ⟨a.x - b.x, a.y - b.y⟩⟩

instance : SMul ℚ Vec2 := ⟨fun c v => ⟨c * v.x, c * v.y⟩⟩

instance : HDiv Vec2 ℚ Vec2 := ⟨fun v c => ⟨v.x / c, v.y / c⟩⟩

/-- Particle state (`struct Particle`, declared in `physics.hpp`; its field
list is taken from the spec's data model: `position`, `previous_position`,
`force_accumulator`, `radius`). -/
@[ext]
structure Particle where
  pos : Vec2
  prev_pos : Vec2
  force : Vec2
  radius : ℚ
deriving DecidableEq

instance : Inhabited Particle := ⟨⟨⟨0, 0⟩, ⟨0, 0⟩, ⟨0, 0⟩, 0⟩⟩

/-- Modelled from the spec: the `Particle` constructor lives in
`physics.hpp`, which is not under `src/`.  Per §3 a spawned particle starts
at the given position with the given radius; `previous_position = position`
(zero initial velocity) and a cleared force accumulator. -/
def Particle.init (pos : Vec2) (radius : ℚ) : Particle :=
  { pos := pos, prev_pos := pos, force := ⟨0, 0⟩, radius := radius }

/-- Modelled from the spec: `Particle::update` is declared in
`physics.hpp`, which is not under `src/`.  Per §4.1 the Verlet step is
`new_position = position + (position − previous_position) + acceleration × dt²`
with `acceleration = force_accumulator`; `previous_position` becomes the
pre-update position and the force accumulator is cleared to zero. -/
def Particle.update (p : Particle) (dt : ℚ) : Particle :=
  { pos := p.pos + (p.pos - p.prev_pos) + (dt ^ 2) • p.force
    prev_pos := p.pos
    force := ⟨0, 0⟩
    radius := p.radius }

/-- Solver state: the fields of `PhysicSolver` used by the physics code
(`screen_size`, `sub_steps`, `cell_width`, `cell_count_x`, `cell_count_y`,
`particles`).  The compute-shader handle and the fixed-grid scratch buffers
are not part of the kinematic state; the fixed-grid buckets are passed
explicitly to the fixed-grid functions below. -/
structure PhysicSolver where
  screen_size : Vec2
  sub_steps : ℕ
  cell_width : ℚ
  cell_count_x : ℕ
  cell_count_y : ℕ
  particles : List Particle

/-- The constructor `PhysicSolver::PhysicSolver`: `sub_steps = 8`,
`cell_width = 2 × largest_particle_radius`,
`cell_count = ceil(screen_dimension / cell_width)`. -/
def PhysicSolver.init (screen_size : Vec2) (largest_particle_radius : ℚ) : PhysicSolver :=
  { screen_size := screen_size
    sub_steps := 8
    cell_width := 2 * largest_particle_radius
    cell_count_x := (⌈screen_size.x / (2 * largest_particle_radius)⌉).toNat
    cell_count_y := (⌈screen_size.y / (2 * largest_particle_radius)⌉).toNat
    particles := [] }

/-- `PhysicSolver::spawnParticle`: `emplace_back` a particle and return a
handle to it.  The store is declared in `physics.hpp` (not under `src/`);
modelled from the spec as an append-only sequence whose stable handle is the
index of the appended element (the C++ code returns `particles.back()`). -/
def PhysicSolver.spawnParticle (s : PhysicSolver) (pos : Vec2) (radius : ℚ) :
    PhysicSolver × ℕ :=
  ({ s with particles := s.particles ++ [Particle.init pos radius] }, s.particles.length)

/-- Iterated spawning: used to express that a handle stays valid after
arbitrarily many later spawns. -/
def PhysicSolver.spawnMany (s : PhysicSolver) (ops : List (Vec2 × ℚ)) : PhysicSolver :=
  ops.foldl (fun st o => (st.spawnParticle o.1 o.2).1) s

/-- `PhysicSolver::applyGravity`: `p.force += glm::vec2(0, -g)` with
`g = 2000`. -/
def PhysicSolver.applyGravity (s : PhysicSolver) : PhysicSolver :=
  { s with particles := s.particles.map fun p => { p with force := p.force + ⟨0, -2000⟩ } }

/-- `PhysicSolver::updateParticles`: call `p.update(dt)` on every particle. -/
def PhysicSolver.updateParticles (s : PhysicSolver) (dt : ℚ) : PhysicSolver :=
  { s with particles := s.particles.map fun p => p.update dt }

/-- Body of the per-particle loop of
`PhysicSolver::constrainParticlesToBoxContainer`: the x-axis `if/else if`
followed by the y-axis `if/else if`, with restitution `e = 0.25`.  Each
branch first rewrites the crossed coordinate and then rewrites
`prev_pos` from the already-updated position. -/
def constrainParticleToBox (box_container_size box_container_center : Vec2)
    (p : Particle) : Particle :=
  let e : ℚ := 0.25
  let box_container_half_size := box_container_size / (2 : ℚ)
  let box_left := box_container_center.x - box_container_half_size.x
  let box_right := box_container_center.x + box_container_half_size.x
  let box_top := box_container_center.y + box_container_half_size.y
  let box_bottom := box_container_center.y - box_container_half_size.y
  let p1 :=
    if p.pos.x + p.radius > box_right then
      let original_displacement_x := p.pos.x - p.prev_pos.x
      let new_x := p.pos.x - 2 * (p.pos.x + p.radius - box_right)
      { p with pos := ⟨new_x, p.pos.y⟩
               prev_pos := ⟨new_x + e * original_displacement_x, p.prev_pos.y⟩ }
    else if p.pos.x - p.radius < box_left then
      let original_displacement_x := p.prev_pos.x - p.pos.x
      let new_x := p.pos.x + 2 * (box_left - (p.pos.x - p.radius))
      { p with pos := ⟨new_x, p.pos.y⟩
               prev_pos := ⟨new_x - e * original_displacement_x, p.prev_pos.y⟩ }
    else p
  if p1.pos.y + p1.radius > box_top then
    let original_displacement_y := p1.pos.y - p1.prev_pos.y
    let new_y := p1.pos.y - 2 * (p1.pos.y + p1.radius - box_top)
    { p1 with pos := ⟨p1.pos.x, new_y⟩
              prev_pos := ⟨p1.prev_pos.x, new_y + e * original_displacement_y⟩ }
  else if p1.pos.y - p1.radius < box_bottom then
    let original_displacement_y := p1.prev_pos.y - p1.pos.y
    let new_y := p1.pos.y + 2 * (box_bottom - (p1.pos.y - p1.radius))
    { p1 with pos := ⟨p1.pos.x, new_y⟩
              prev_pos := ⟨p1.prev_pos.x, new_y - e * original_displacement_y⟩ }
  else p1

/-- `PhysicSolver::constrainParticlesToBoxContainer`: the per-particle
constraint applied to every particle in place. -/
def PhysicSolver.constrainParticlesToBoxContainer (s : PhysicSolver)
    (box_container_size box_container_center : Vec2) : PhysicSolver :=
  { s with particles :=
      s.particles.map (constrainParticleToBox box_container_size box_container_center) }

/-- Cell coordinate of a scalar coordinate: the `(int32_t)(q / cell_width)`
cast of the C++ code.  On the non-negative in-grid domain assumed by the
claims, C truncation-toward-zero equals the floor. -/
def cellCoord (cell_width : ℚ) (q : ℚ) : ℕ :=
  (⌊q / cell_width⌋).toNat

/-- Linear cell index of a particle's center,
`h = cell_y * cell_count_x + cell_x`, as computed twice inside
`PhysicSolver::solveParticleCollisionsSpatialHash`. -/
def particleHash (cell_width : ℚ) (cell_count_x : ℕ) (p : Particle) : ℕ :=
  cellCoord cell_width p.pos.y * cell_count_x + cellCoord cell_width p.pos.x

/-- The in-place prefix-sum loop
`for (i = 1; i < count_arr.size(); i++) count_arr[i] += count_arr[i-1]`,
with explicit fuel (the loop runs `count_arr.size() - 1` times). -/
def prefixLoop : List ℕ → ℕ → ℕ → List ℕ
  | a, _, 0 => a
  | a, i, fuel + 1 => prefixLoop (a.set i (a.getD i 0 + a.getD (i - 1) 0)) (i + 1) fuel

/-- One iteration of the scatter loop of the spatial-hash build:
`count_arr[h]--; particles_grouped[count_arr[h]] = p_i;`. -/
def scatterStep (f : ℕ → ℕ) (st : List ℕ × List ℕ) (p_i : ℕ) : List ℕ × List ℕ :=
  let h := f p_i
  let c := st.1.getD h 0 - 1
  (st.1.set h c, st.2.set c p_i)

/-- The per-index hash used by the scatter loop: the cell of particle
`p_i`'s center. -/
def hashFun (cell_width : ℚ) (cell_count_x : ℕ) (ps : List Particle) : ℕ → ℕ :=
  fun p_i => particleHash cell_width cell_count_x (ps.getD p_i default)

/-- First pass of the spatial-hash build: per-cell occupancy counts by
particle center (`count_arr[h]++`), over an array of
`cell_count_x * cell_count_y + 1` zeros. -/
def countsArr (cell_width : ℚ) (cell_count_x cell_count_y : ℕ) (ps : List Particle) :
    List ℕ :=
  ps.foldl
    (fun a p =>
      a.set (particleHash cell_width cell_count_x p)
        (a.getD (particleHash cell_width cell_count_x p) 0 + 1))
    (List.replicate (cell_count_x * cell_count_y + 1) 0)

/-- Second pass: the in-place prefix sum of the count array. -/
def prefixArr (cell_width : ℚ) (cell_count_x cell_count_y : ℕ) (ps : List Particle) :
    List ℕ :=
  prefixLoop (countsArr cell_width cell_count_x cell_count_y ps) 1
    ((countsArr cell_width cell_count_x cell_count_y ps).length - 1)

/-- The CSR build at the start of
`PhysicSolver::solveParticleCollisionsSpatialHash`: count per-cell occupancy
by particle center, prefix-sum in place, then scatter particle indices by
decrementing per-cell cursors.  Returns the final
`(count_arr, particles_grouped)` pair; after the scatter the `count_arr`
entries are exactly the CSR bucket start offsets. -/
def buildSpatialHash (cell_width : ℚ) (cell_count_x cell_count_y : ℕ)
    (ps : List Particle) : List ℕ × List ℕ :=
  (List.range ps.length).foldl
    (scatterStep (hashFun cell_width cell_count_x ps))
    (prefixArr cell_width cell_count_x cell_count_y ps, List.replicate ps.length 0)

/-- `PhysicSolver::solveParticleCollisionsSpatialHash`: build the CSR
structure, then dispatch the collision kernel and read the resolved
positions back.  Modelled from the spec: the kernel itself
(`renderer/shaders/solve_collisions.cs.glsl`) is not under `src/` and §5
specifies it as a relaxed-consistency data-parallel computation, so the
kernel is a parameter that consumes the freshly built CSR structure and the
particle array and yields the updated particle array. -/
def PhysicSolver.solveParticleCollisionsSpatialHash (s : PhysicSolver)
    (kernel : List ℕ × List ℕ → List Particle → List Particle) : PhysicSolver :=
  let hashStructure := buildSpatialHash s.cell_width s.cell_count_x s.cell_count_y s.particles
  { s with particles := kernel hashStructure s.particles }

/-- `PhysicSolver::update`: split `dt` into `sub_steps` equal sub-steps and
run gravity → integrate → constrain (to the screen-sized box centered at
`screen_size / 2`) → resolve collisions, in that order, each sub-step. -/
def PhysicSolver.update (s : PhysicSolver)
    (kernel : List ℕ × List ℕ → List Particle → List Particle) (dt : ℚ) : PhysicSolver :=
  let step_dt := dt / (s.sub_steps : ℚ)
  (List.range s.sub_steps).foldl
    (fun st _ =>
      let st1 := st.applyGravity
      let st2 := st1.updateParticles step_dt
      let st3 := st2.constrainParticlesToBoxContainer st2.screen_size
        (st2.screen_size / (2 : ℚ))
      st3.solveParticleCollisionsSpatialHash kernel)
    s

/-- One sub-step of `PhysicSolver::update`, written as a named composition
for the sub-step-count theorem. -/
def PhysicSolver.subStep (kernel : List ℕ × List ℕ → List Particle → List Particle)
    (step_dt : ℚ) (s : PhysicSolver) : PhysicSolver :=
  (((s.applyGravity).updateParticles step_dt).constrainParticlesToBoxContainer
      s.screen_size (s.screen_size / (2 : ℚ))).solveParticleCollisionsSpatialHash kernel

/-- AABB-minimum-corner cell x-coordinate of the fixed-grid strategy:
`(uint32_t)((p.pos.x - p.radius) / cell_width)`. -/
def aabbCellX (cell_width : ℚ) (p : Particle) : ℕ :=
  (⌊(p.pos.x - p.radius) / cell_width⌋).toNat

/-- AABB-minimum-corner cell y-coordinate of the fixed-grid strategy. -/
def aabbCellY (cell_width : ℚ) (p : Particle) : ℕ :=
  (⌊(p.pos.y - p.radius) / cell_width⌋).toNat

/-- `in_north` of `PhysicSolver::assignParticlesToFixedGrid`. -/
def inNorth (cell_width : ℚ) (cell_count_y : ℕ) (p : Particle) : Prop :=
  aabbCellY cell_width p + 1 < cell_count_y ∧
    p.pos.y + p.radius ≥ cell_width * ((aabbCellY cell_width p : ℚ) + 1)

instance (cell_width : ℚ) (cell_count_y : ℕ) (p : Particle) :
    Decidable (inNorth cell_width cell_count_y p) := by
  unfold inNorth; infer_instance

/-- `in_east` of `PhysicSolver::assignParticlesToFixedGrid`. -/
def inEast (cell_width : ℚ) (cell_count_x : ℕ) (p : Particle) : Prop :=
  aabbCellX cell_width p + 1 < cell_count_x ∧
    p.pos.x + p.radius ≥ cell_width * ((aabbCellX cell_width p : ℚ) + 1)

instance (cell_width : ℚ) (cell_count_x : ℕ) (p : Particle) :
    Decidable (inEast cell_width cell_count_x p) := by
  unfold inEast; infer_instance

/-- The cells a particle is pushed to by
`PhysicSolver::assignParticlesToFixedGrid`, in push order: base cell, then
north, then north-east (only when both north and east), then east. -/
def memberCells (cell_width : ℚ) (cell_count_x cell_count_y : ℕ) (p : Particle) :
    List ℕ :=
  let cell_x := aabbCellX cell_width p
  let cell_y := aabbCellY cell_width p
  [cell_y * cell_count_x + cell_x]
    ++ (if inNorth cell_width cell_count_y p then [(cell_y + 1) * cell_count_x + cell_x] else [])
    ++ (if inNorth cell_width cell_count_y p ∧ inEast cell_width cell_count_x p then
          [(cell_y + 1) * cell_count_x + cell_x + 1] else [])
    ++ (if inEast cell_width cell_count_x p then [cell_y * cell_count_x + cell_x + 1] else [])

/-- `PhysicSolver::assignParticlesToFixedGrid`: push each particle index
into every cell of its (up-to-4-cell) membership list, particles in index
order. -/
def assignParticlesToFixedGrid (cell_width : ℚ) (cell_count_x cell_count_y : ℕ)
    (ps : List Particle) : List (List ℕ) :=
  (List.range ps.length).foldl
    (fun grid p_i =>
      (memberCells cell_width cell_count_x cell_count_y (ps.getD p_i default)).foldl
        (fun g c => g.set c (g.getD c [] ++ [p_i])) grid)
    (List.replicate (cell_count_x * cell_count_y) [])

/-- The ordered pairs enumerated by the double loop
`for p1_i; for p2_i = p1_i + 1` over one cell's member list. -/
def cellPairs : List ℕ → List (ℕ × ℕ)
  | [] => []
  | p1 :: rest => (rest.map fun p2 => (p1, p2)) ++ cellPairs rest

/-- The particle-index pairs passed to `collideTwoParticles` by
`PhysicSolver::solveGridCollisionsInRange(0, cell_count_x, 0, cell_count_y)`,
in call order (cells scanned row by row, `h = y * cell_count_x + x`). -/
def solveGridCollisionsPairs (cell_count_x cell_count_y : ℕ)
    (grid : List (List ℕ)) : List (ℕ × ℕ) :=
  (List.range cell_count_y).flatMap fun y =>
    (List.range cell_count_x).flatMap fun x =>
      cellPairs (grid.getD (y * cell_count_x + x) [])

/-- Two-dimensional vector over `ℝ`, for the collision resolution where
`glm::length` (a square root) is involved. -/
@[ext]
structure Vec2R where
  x : ℝ
  y : ℝ

instance : Add Vec2R := ⟨fun a b => ⟨a.x + b.x, a.y + b.y⟩⟩

instance : Sub Vec2R := ⟨fun a b => ⟨a.x - b.x, a.y - b.y⟩⟩

instance : SMul ℝ Vec2R := ⟨fun c v => ⟨c * v.x, c * v.y⟩⟩

noncomputable instance : HDiv Vec2R ℝ Vec2R := ⟨fun v c => ⟨v.x / c, v.y / c⟩⟩

/-- `glm::length`: the Euclidean norm. -/
noncomputable def Vec2R.length (v : Vec2R) : ℝ :=
  Real.sqrt (v.x ^ 2 + v.y ^ 2)

/-- Particle state over `ℝ`, for the collision functions. -/
structure ParticleR where
  pos : Vec2R
  prev_pos : Vec2R
  force : Vec2R
  radius : ℝ

instance : Inhabited ParticleR := ⟨⟨⟨0, 0⟩, ⟨0, 0⟩, ⟨0, 0⟩, 0⟩⟩

/-- `PhysicSolver::collideTwoParticles`: pairwise circle-circle resolution
on the particle array, with `e = 0.75`.  The two position writes are
independent (`p1_i ≠ p2_i` in the write branch) and all reads happen before
the writes, so the two `List.set`s model the in-place mutation. -/
noncomputable def collideTwoParticles (ps : List ParticleR) (p1_i p2_i : ℕ) :
    List ParticleR :=
  if p1_i = p2_i then ps
  else
    let p1 := ps.getD p1_i default
    let p2 := ps.getD p2_i default
    let e : ℝ := 0.75
    let distanceBetweenCenters := (p1.pos - p2.pos).length
    let sumOfRadii := p1.radius + p2.radius
    if distanceBetweenCenters < sumOfRadii then
      let collisionAxis := p1.pos - p2.pos
      let n := collisionAxis / distanceBetweenCenters
      let massSum := p1.radius + p2.radius
      let massRatio1 := p1.radius / massSum
      let massRatio2 := p2.radius / massSum
      let delta := e * (sumOfRadii - distanceBetweenCenters)
      (ps.set p1_i { p1 with pos := p1.pos + (massRatio2 * delta) • n }).set p2_i
        { p2 with pos := p2.pos - (massRatio1 * delta) • n }
    else ps

/-- The degenerate configuration of `PhysicSolver::collideTwoParticles`:
the early `p1_i == p2_i` return is not taken, the resolution branch
`distanceBetweenCenters < sumOfRadii` is entered, and the divisor
`distanceBetweenCenters` of `collisionAxis / distanceBetweenCenters` is
zero.  The function body contains no epsilon floor and no skip for this
case. -/
def collideEntersDivisionByZero (ps : List ParticleR) (p1_i p2_i : ℕ) : Prop :=
  p1_i ≠ p2_i ∧
    ((ps.getD p1_i default).pos - (ps.getD p2_i default).pos).length = 0 ∧
    ((ps.getD p1_i default).pos - (ps.getD p2_i default).pos).length <
      (ps.getD p1_i default).radius + (ps.getD p2_i default).radius

/-- Prefix sums of a count array: `prefixVal a j = a[0] + ... + a[j]`
(the value the in-place prefix pass leaves at index `j`). -/
def prefixVal (a : List ℕ) : ℕ → ℕ
  | 0 => a.getD 0 0
  | j + 1 => prefixVal a j + a.getD (j + 1) 0

/-- Number of indices `< k` hashing to cell `c` (occurrences among the
first `k` particles). -/
def cntUpTo (f : ℕ → ℕ) (k c : ℕ) : ℕ :=
  (List.range k).countP fun i => decide (f i = c)

/-- The slot the scatter loop writes particle `i` into: the bucket cursor
of cell `f i` after its `cntUpTo f (i+1) (f i)`-th decrement. -/
def slotOf (f : ℕ → ℕ) (P : List ℕ) (i : ℕ) : ℕ :=
  P.getD (f i) 0 - cntUpTo f (i + 1) (f i)

/-! ## Component lemmas and list helpers -/

@[simp] theorem Vec2.add_x (a b : Vec2) : (a + b).x = a.x + b.x := rfl

@[simp] theorem Vec2.add_y (a b : Vec2) : (a + b).y = a.y + b.y := rfl

@[simp] theorem Vec2.sub_x (a b : Vec2) : (a - b).x = a.x - b.x := rfl

@[simp] theorem Vec2.sub_y (a b : Vec2) : (a - b).y = a.y - b.y := rfl

@[simp] theorem Vec2.smul_x (c : ℚ) (v : Vec2) : (c • v).x = c * v.x := rfl

@[simp] theorem Vec2.smul_y (c : ℚ) (v : Vec2) : (c • v).y = c * v.y := rfl

@[simp] theorem Vec2.hdiv_x (v : Vec2) (c : ℚ) : (v / c).x = v.x / c := rfl

@[simp] theorem Vec2.hdiv_y (v : Vec2) (c : ℚ) : (v / c).y = v.y / c := rfl

@[simp] theorem Vec2R.addx (a b : Vec2R) : (a + b).x = a.x + b.x := rfl

@[simp] theorem Vec2R.addy (a b : Vec2R) : (a + b).y = a.y + b.y := rfl

@[simp] theorem Vec2R.subx (a b : Vec2R) : (a - b).x = a.x - b.x := rfl

@[simp] theorem Vec2R.suby (a b : Vec2R) : (a - b).y = a.y - b.y := rfl

@[simp] theorem Vec2R.smulx (c : ℝ) (v : Vec2R) : (c • v).x = c * v.x := rfl

@[simp] theorem Vec2R.smuly (c : ℝ) (v : Vec2R) : (c • v).y = c * v.y := rfl

@[simp] theorem Vec2R.hdivx (v : Vec2R) (c : ℝ) : (v / c).x = v.x / c := rfl

@[simp] theorem Vec2R.hdivy (v : Vec2R) (c : ℝ) : (v / c).y = v.y / c := rfl

theorem getD_set_self {α : Type} (l : List α) (i : ℕ) (v d : α) (h : i < l.length) :
    (l.set i v).getD i d = v := by
  induction l generalizing i with
  | nil => simp at h
  | cons a t ih =>
    cases i with
    | zero => rfl
    | succ k => exact ih k (by simpa using h)

theorem getD_set_ne {α : Type} (l : List α) (i j : ℕ) (v d : α) (h : i ≠ j) :
    (l.set i v).getD j d = l.getD j d := by
  induction l generalizing i j with
  | nil => rfl
  | cons a t ih =>
    cases i with
    | zero =>
      cases j with
      | zero => exact absurd rfl h
      | succ m => rfl
    | succ k =>
      cases j with
      | zero => rfl
      | succ m => exact ih k m (by omega)

theorem getD_append_left {α : Type} (l l' : List α) (i : ℕ) (d : α) (h : i < l.length) :
    (l ++ l').getD i d = l.getD i d := by
  induction l generalizing i with
  | nil => simp at h
  | cons a t ih =>
    cases i with
    | zero => rfl
    | succ k => exact ih k (by simpa using h)

theorem getD_append_length {α : Type} (l : List α) (x d : α) :
    (l ++ [x]).getD l.length d = x := by
  induction l with
  | nil => rfl
  | cons a t ih => exact ih

theorem getD_map_of_lt {α β : Type} (f : α → β) (l : List α) (i : ℕ) (dA : α) (dB : β)
    (h : i < l.length) : (l.map f).getD i dB = f (l.getD i dA) := by
  induction l generalizing i with
  | nil => simp at h
  | cons a t ih =>
    cases i with
    | zero => rfl
    | succ k => exact ih k (by simpa using h)

theorem getD_replicate {α : Type} (n i : ℕ) (a : α) :
    (List.replicate n a).getD i a = a := by
  induction n generalizing i with
  | zero => rfl
  | succ m ih =>
    cases i with
    | zero => rfl
    | succ k => exact ih k

/-! ## C6: the Verlet integration step -/

/-- C6: one integration step with time step `dt` sets
`new_position = position + (position - previous_position) + force * dt²`,
sets `previous_position` to the pre-update position, clears the force
accumulator, and with a zero force accumulator moves the particle by exactly
its prior position delta. -/
theorem claim_C6 (s : PhysicSolver) (dt : ℚ) (i : ℕ) (hi : i < s.particles.length) :
    ((s.updateParticles dt).particles.getD i default).pos
        = (s.particles.getD i default).pos
          + ((s.particles.getD i default).pos - (s.particles.getD i default).prev_pos)
          + (dt ^ 2) • (s.particles.getD i default).force
      ∧ ((s.updateParticles dt).particles.getD i default).prev_pos
          = (s.particles.getD i default).pos
      ∧ ((s.updateParticles dt).particles.getD i default).force = (⟨0, 0⟩ : Vec2)
      ∧ ((s.particles.getD i default).force = (⟨0, 0⟩ : Vec2) →
          ((s.updateParticles dt).particles.getD i default).pos
            = (s.particles.getD i default).pos
              + ((s.particles.getD i default).pos
                  - (s.particles.getD i default).prev_pos)) := by
  have hmap : (s.updateParticles dt).particles.getD i default
      = Particle.update (s.particles.getD i default) dt := by
    unfold PhysicSolver.updateParticles
    exact getD_map_of_lt _ _ i default default hi
  refine ⟨by rw [hmap]; rfl, by rw [hmap]; rfl, by rw [hmap]; rfl, ?_⟩
  intro hf
  rw [hmap]
  show (s.particles.getD i default).pos
      + ((s.particles.getD i default).pos - (s.particles.getD i default).prev_pos)
      + (dt ^ 2) • (s.particles.getD i default).force = _
  rw [hf]
  apply Vec2.ext <;> simp

/-- Witness for C6 at a concrete particle with zero force accumulator:
position `(3,4)`, previous position `(1,2)`, `dt = 2` produce position
`(5,6)` (exactly the prior delta), previous position `(3,4)`, force `(0,0)`. -/
theorem claim_C6_witness :
    (((PhysicSolver.mk ⟨40, 40⟩ 8 10 4 4 [⟨⟨3, 4⟩, ⟨1, 2⟩, ⟨0, 0⟩, 1⟩]).updateParticles
        2).particles.getD 0 default).pos = (⟨5, 6⟩ : Vec2)
      ∧ (((PhysicSolver.mk ⟨40, 40⟩ 8 10 4 4 [⟨⟨3, 4⟩, ⟨1, 2⟩, ⟨0, 0⟩, 1⟩]).updateParticles
        2).particles.getD 0 default).prev_pos = (⟨3, 4⟩ : Vec2)
      ∧ (((PhysicSolver.mk ⟨40, 40⟩ 8 10 4 4 [⟨⟨3, 4⟩, ⟨1, 2⟩, ⟨0, 0⟩, 1⟩]).updateParticles
        2).particles.getD 0 default).force = (⟨0, 0⟩ : Vec2) := by
  have h := claim_C6 (PhysicSolver.mk ⟨40, 40⟩ 8 10 4 4 [⟨⟨3, 4⟩, ⟨1, 2⟩, ⟨0, 0⟩, 1⟩])
    2 0 (by simp)
  refine ⟨?_, ?_, h.2.2.1⟩
  · rw [h.2.2.2 rfl]
    apply Vec2.ext <;> simp <;> norm_num
  · rw [h.2.1]; rfl

/-! ## C9: spawning appends and handles are stable -/

theorem spawnMany_preserves (s : PhysicSolver) (ops : List (Vec2 × ℚ)) (i : ℕ)
    (hi : i < s.particles.length) :
    i < (s.spawnMany ops).particles.length ∧
      (s.spawnMany ops).particles.getD i default = s.particles.getD i default := by
  induction ops generalizing s with
  | nil => exact ⟨hi, rfl⟩
  | cons o rest ih =>
    have hstep : (s.spawnParticle o.1 o.2).1.particles
        = s.particles ++ [Particle.init o.1 o.2] := rfl
    have hlen : i < (s.spawnParticle o.1 o.2).1.particles.length := by
      rw [hstep, List.length_append]; omega
    have h := ih (s.spawnParticle o.1 o.2).1 hlen
    have hMany : s.spawnMany (o :: rest) = ((s.spawnParticle o.1 o.2).1).spawnMany rest := rfl
    rw [hMany]
    refine ⟨h.1, ?_⟩
    rw [h.2, hstep, getD_append_left _ _ _ _ hi]

/-- C9: `spawnParticle(position, radius)` appends exactly one particle to
the end of the store, leaves all previously spawned particles unchanged,
and returns a handle that refers to the newly appended particle and keeps
referring to it after arbitrarily many later spawns. -/
theorem claim_C9 (s : PhysicSolver) (pos : Vec2) (radius : ℚ) :
    (s.spawnParticle pos radius).1.particles.length = s.particles.length + 1
      ∧ (∀ i, i < s.particles.length →
          (s.spawnParticle pos radius).1.particles.getD i default
            = s.particles.getD i default)
      ∧ (s.spawnParticle pos radius).1.particles.getD (s.spawnParticle pos radius).2 default
          = Particle.init pos radius
      ∧ (∀ ops : List (Vec2 × ℚ),
          ((s.spawnParticle pos radius).1.spawnMany ops).particles.getD
              (s.spawnParticle pos radius).2 default = Particle.init pos radius) := by
  have hstep : (s.spawnParticle pos radius).1.particles
      = s.particles ++ [Particle.init pos radius] := rfl
  have hhandle : (s.spawnParticle pos radius).2 = s.particles.length := rfl
  refine ⟨by rw [hstep, List.length_append]; rfl, ?_, ?_, ?_⟩
  · intro i hi
    rw [hstep, getD_append_left _ _ _ _ hi]
  · rw [hstep, hhandle, getD_append_length]
  · intro ops
    have hlt : (s.spawnParticle pos radius).2 < (s.spawnParticle pos radius).1.particles.length := by
      rw [hstep, hhandle, List.length_append]; simp
    have h := spawnMany_preserves (s.spawnParticle pos radius).1 ops
      (s.spawnParticle pos radius).2 hlt
    rw [h.2, hstep, hhandle, getD_append_length]

/-- Witness for C9: spawning into a one-particle store appends at handle 1,
leaves particle 0 unchanged, and two further spawns leave the handle
referring to the same particle. -/
theorem claim_C9_witness :
    ((PhysicSolver.mk ⟨40, 40⟩ 8 10 4 4 [Particle.init ⟨1, 1⟩ 2]).spawnParticle
        ⟨3, 4⟩ 5).1.particles.length = 2
      ∧ ((PhysicSolver.mk ⟨40, 40⟩ 8 10 4 4 [Particle.init ⟨1, 1⟩ 2]).spawnParticle
          ⟨3, 4⟩ 5).1.particles.getD 0 default = Particle.init ⟨1, 1⟩ 2
      ∧ (((PhysicSolver.mk ⟨40, 40⟩ 8 10 4 4 [Particle.init ⟨1, 1⟩ 2]).spawnParticle
          ⟨3, 4⟩ 5).1.spawnMany [(⟨7, 7⟩, 1), (⟨9, 9⟩, 1)]).particles.getD
            ((PhysicSolver.mk ⟨40, 40⟩ 8 10 4 4 [Particle.init ⟨1, 1⟩ 2]).spawnParticle
              ⟨3, 4⟩ 5).2 default = Particle.init ⟨3, 4⟩ 5 := by
  have h := claim_C9 (PhysicSolver.mk ⟨40, 40⟩ 8 10 4 4 [Particle.init ⟨1, 1⟩ 2]) ⟨3, 4⟩ 5
  exact ⟨h.1, h.2.1 0 (by simp), h.2.2.2 [(⟨7, 7⟩, 1), (⟨9, 9⟩, 1)]⟩

/-! ## C3: the box-container constraint -/

/-- C3: a particle whose AABB crosses the right boundary has its x
coordinate repositioned by subtracting `2 * (pos.x + radius - box_right)`,
its retained x velocity (position minus previous position) reflected and
rescaled by `e = 0.25`, and afterwards satisfies
`pos.x + radius ≤ box_right`; the left, top and bottom edges are handled
symmetrically (the left/bottom clauses carry the `else if` guard of the
code).  The constraint pass applies exactly this per-particle step to every
particle. -/
theorem claim_C3 (sz c : Vec2) (s : PhysicSolver) (i : ℕ) (hi : i < s.particles.length)
    (p : Particle) :
    ((s.constrainParticlesToBoxContainer sz c).particles.getD i default
        = constrainParticleToBox sz c (s.particles.getD i default))
      ∧ (p.pos.x + p.radius > c.x + sz.x / 2 →
          (constrainParticleToBox sz c p).pos.x
              = p.pos.x - 2 * (p.pos.x + p.radius - (c.x + sz.x / 2))
            ∧ (constrainParticleToBox sz c p).pos.x
                - (constrainParticleToBox sz c p).prev_pos.x
              = -(0.25 * (p.pos.x - p.prev_pos.x))
            ∧ (constrainParticleToBox sz c p).pos.x + (constrainParticleToBox sz c p).radius
              ≤ c.x + sz.x / 2)
      ∧ (¬(p.pos.x + p.radius > c.x + sz.x / 2) → p.pos.x - p.radius < c.x - sz.x / 2 →
          (constrainParticleToBox sz c p).pos.x
              = p.pos.x + 2 * ((c.x - sz.x / 2) - (p.pos.x - p.radius))
            ∧ (constrainParticleToBox sz c p).pos.x
                - (constrainParticleToBox sz c p).prev_pos.x
              = -(0.25 * (p.pos.x - p.prev_pos.x))
            ∧ c.x - sz.x / 2
              ≤ (constrainParticleToBox sz c p).pos.x - (constrainParticleToBox sz c p).radius)
      ∧ (p.pos.y + p.radius > c.y + sz.y / 2 →
          (constrainParticleToBox sz c p).pos.y
              = p.pos.y - 2 * (p.pos.y + p.radius - (c.y + sz.y / 2))
            ∧ (constrainParticleToBox sz c p).pos.y
                - (constrainParticleToBox sz c p).prev_pos.y
              = -(0.25 * (p.pos.y - p.prev_pos.y))
            ∧ (constrainParticleToBox sz c p).pos.y + (constrainParticleToBox sz c p).radius
              ≤ c.y + sz.y / 2)
      ∧ (¬(p.pos.y + p.radius > c.y + sz.y / 2) → p.pos.y - p.radius < c.y - sz.y / 2 →
          (constrainParticleToBox sz c p).pos.y
              = p.pos.y + 2 * ((c.y - sz.y / 2) - (p.pos.y - p.radius))
            ∧ (constrainParticleToBox sz c p).pos.y
                - (constrainParticleToBox sz c p).prev_pos.y
              = -(0.25 * (p.pos.y - p.prev_pos.y))
            ∧ c.y - sz.y / 2
              ≤ (constrainParticleToBox sz c p).pos.y
                  - (constrainParticleToBox sz c p).radius) := by
  refine ⟨?_, ?_, ?_, ?_, ?_⟩
  · unfold PhysicSolver.constrainParticlesToBoxContainer
    exact getD_map_of_lt _ _ i default default hi
  · intro hR
    simp only [constrainParticleToBox, Vec2.hdiv_x, Vec2.hdiv_y]
    split_ifs <;> try { exfalso; linarith }
    all_goals refine ⟨?_, ?_, ?_⟩ <;> try dsimp
    all_goals first | rfl | ring1 | linarith
  · intro hNR hL
    simp only [constrainParticleToBox, Vec2.hdiv_x, Vec2.hdiv_y]
    split_ifs <;> try { exfalso; linarith }
    all_goals refine ⟨?_, ?_, ?_⟩ <;> try dsimp
    all_goals first | rfl | ring1 | linarith
  · intro hT
    simp only [constrainParticleToBox, Vec2.hdiv_x, Vec2.hdiv_y]
    split_ifs <;> try { exfalso; linarith }
    all_goals refine ⟨?_, ?_, ?_⟩ <;> try dsimp
    all_goals first | rfl | ring1 | linarith
  · intro hNT hB
    simp only [constrainParticleToBox, Vec2.hdiv_x, Vec2.hdiv_y]
    split_ifs <;> try { exfalso; linarith }
    all_goals refine ⟨?_, ?_, ?_⟩ <;> try dsimp
    all_goals first | rfl | ring1 | linarith

/-- Witness for C3: a particle of radius 4 at `(98, 99)` (previous position
`(96, 97)`) in the box `[0,100] × [0,100]` crosses the right and top edges;
one constraint step moves it to `x = 94`, `y = 93`, reflects the retained
velocity scaled by `0.25` (from `+2` to `-1/2` on each axis), and leaves
`pos.x + radius ≤ 100`. -/
theorem claim_C3_witness :
    (constrainParticleToBox ⟨100, 100⟩ ⟨50, 50⟩ ⟨⟨98, 99⟩, ⟨96, 97⟩, ⟨0, 0⟩, 4⟩).pos.x = 94
      ∧ (constrainParticleToBox ⟨100, 100⟩ ⟨50, 50⟩ ⟨⟨98, 99⟩, ⟨96, 97⟩, ⟨0, 0⟩, 4⟩).pos.x
          - (constrainParticleToBox ⟨100, 100⟩ ⟨50, 50⟩
              ⟨⟨98, 99⟩, ⟨96, 97⟩, ⟨0, 0⟩, 4⟩).prev_pos.x = -(1 / 2)
      ∧ (constrainParticleToBox ⟨100, 100⟩ ⟨50, 50⟩ ⟨⟨98, 99⟩, ⟨96, 97⟩, ⟨0, 0⟩, 4⟩).pos.x
          + (constrainParticleToBox ⟨100, 100⟩ ⟨50, 50⟩
              ⟨⟨98, 99⟩, ⟨96, 97⟩, ⟨0, 0⟩, 4⟩).radius ≤ 100
      ∧ (constrainParticleToBox ⟨100, 100⟩ ⟨50, 50⟩
          ⟨⟨98, 99⟩, ⟨96, 97⟩, ⟨0, 0⟩, 4⟩).pos.y = 93 := by
  have h := claim_C3 ⟨100, 100⟩ ⟨50, 50⟩
    (PhysicSolver.mk ⟨40, 40⟩ 8 10 4 4 [⟨⟨98, 99⟩, ⟨96, 97⟩, ⟨0, 0⟩, 4⟩]) 0 (by simp)
    ⟨⟨98, 99⟩, ⟨96, 97⟩, ⟨0, 0⟩, 4⟩
  obtain ⟨h1, h2, h3⟩ := h.2.1 (by norm_num)
  obtain ⟨h4, h5, h6⟩ := h.2.2.2.1 (by norm_num)
  refine ⟨?_, ?_, ?_, ?_⟩
  · rw [h1]; norm_num
  · rw [h2]; norm_num
  · norm_num at h3; exact h3
  · rw [h4]; norm_num

/-! ## C5: eight sub-steps per update -/

/-- C5: the constructor fixes `sub_steps = 8`, and `update(dt)` on any
solver state with `sub_steps = 8` performs exactly 8 iterations of the
sub-step gravity → integrate → constrain-to-screen-box → resolve-collisions,
each advancing by `dt / 8`. -/
theorem claim_C5 (scr : Vec2) (r : ℚ) (s : PhysicSolver)
    (kernel : List ℕ × List ℕ → List Particle → List Particle) (dt : ℚ)
    (hs : s.sub_steps = 8) :
    (PhysicSolver.init scr r).sub_steps = 8
      ∧ s.update kernel dt = (PhysicSolver.subStep kernel (dt / 8))^[8] s := by
  refine ⟨rfl, ?_⟩
  unfold PhysicSolver.update
  rw [hs]
  norm_num
  rfl

/-- Witness for C5: the freshly constructed solver run with `dt = 16` and a
trivial kernel equals eight iterations of the `dt / 8` sub-step. -/
theorem claim_C5_witness :
    (PhysicSolver.init ⟨40, 40⟩ 5).update (fun _ ps => ps) 16
      = (PhysicSolver.subStep (fun _ ps => ps) (16 / 8))^[8] (PhysicSolver.init ⟨40, 40⟩ 5) :=
  (claim_C5 ⟨40, 40⟩ 5 (PhysicSolver.init ⟨40, 40⟩ 5) (fun _ ps => ps) 16 rfl).2

/-! ## Vector length lemmas for the collision resolution -/

theorem Vec2R.length_smul (c : ℝ) (v : Vec2R) : (c • v).length = |c| * v.length := by
  unfold Vec2R.length
  simp only [Vec2R.smulx, Vec2R.smuly, mul_pow]
  rw [← mul_add, Real.sqrt_mul (sq_nonneg c), Real.sqrt_sq_eq_abs]

theorem Vec2R.length_hdiv (v : Vec2R) (c : ℝ) (hc : 0 < c) :
    (v / c).length = v.length / c := by
  unfold Vec2R.length
  simp only [Vec2R.hdivx, Vec2R.hdivy, div_pow]
  rw [div_add_div_same, Real.sqrt_div (by positivity), Real.sqrt_sq hc.le]

theorem Vec2R.add_sub_cancel (a w : Vec2R) : a + w - a = w := by
  apply Vec2R.ext <;> simp

theorem Vec2R.sub_sub_self (a w : Vec2R) : a - w - a = (-1 : ℝ) • w := by
  apply Vec2R.ext <;> simp <;> ring

/-- In the resolution branch (`p1_i ≠ p2_i`, centers closer than the radius
sum), `collideTwoParticles` writes exactly the displaced positions of the
source formula and leaves both radii unchanged. -/
theorem collide_pos_branch (ps : List ParticleR) (i j : ℕ) (hij : i ≠ j)
    (hi : i < ps.length) (hj : j < ps.length)
    (hlt : ((ps.getD i default).pos - (ps.getD j default).pos).length
        < (ps.getD i default).radius + (ps.getD j default).radius) :
    ((collideTwoParticles ps i j).getD i default).pos
        = (ps.getD i default).pos
          + (((ps.getD j default).radius
                / ((ps.getD i default).radius + (ps.getD j default).radius))
              * (0.75 * (((ps.getD i default).radius + (ps.getD j default).radius)
                  - ((ps.getD i default).pos - (ps.getD j default).pos).length)))
            • (((ps.getD i default).pos - (ps.getD j default).pos)
                / ((ps.getD i default).pos - (ps.getD j default).pos).length)
      ∧ ((collideTwoParticles ps i j).getD j default).pos
        = (ps.getD j default).pos
          - (((ps.getD i default).radius
                / ((ps.getD i default).radius + (ps.getD j default).radius))
              * (0.75 * (((ps.getD i default).radius + (ps.getD j default).radius)
                  - ((ps.getD i default).pos - (ps.getD j default).pos).length)))
            • (((ps.getD i default).pos - (ps.getD j default).pos)
                / ((ps.getD i default).pos - (ps.getD j default).pos).length)
      ∧ ((collideTwoParticles ps i j).getD i default).radius = (ps.getD i default).radius
      ∧ ((collideTwoParticles ps i j).getD j default).radius
        = (ps.getD j default).radius := by
  have hres : collideTwoParticles ps i j
      = (ps.set i
          { ps.getD i default with
              pos := (ps.getD i default).pos
                + (((ps.getD j default).radius
                      / ((ps.getD i default).radius + (ps.getD j default).radius))
                    * (0.75 * (((ps.getD i default).radius + (ps.getD j default).radius)
                        - ((ps.getD i default).pos - (ps.getD j default).pos).length)))
                  • (((ps.getD i default).pos - (ps.getD j default).pos)
                      / ((ps.getD i default).pos - (ps.getD j default).pos).length) }).set j
          { ps.getD j default with
              pos := (ps.getD j default).pos
                - (((ps.getD i default).radius
                      / ((ps.getD i default).radius + (ps.getD j default).radius))
                    * (0.75 * (((ps.getD i default).radius + (ps.getD j default).radius)
                        - ((ps.getD i default).pos - (ps.getD j default).pos).length)))
                  • (((ps.getD i default).pos - (ps.getD j default).pos)
                      / ((ps.getD i default).pos - (ps.getD j default).pos).length) } := by
    simp only [collideTwoParticles, if_neg hij]
    rw [if_pos hlt]
  have hgj : (collideTwoParticles ps i j).getD j default
      = { ps.getD j default with
            pos := (ps.getD j default).pos
              - (((ps.getD i default).radius
                    / ((ps.getD i default).radius + (ps.getD j default).radius))
                  * (0.75 * (((ps.getD i default).radius + (ps.getD j default).radius)
                      - ((ps.getD i default).pos - (ps.getD j default).pos).length)))
                • (((ps.getD i default).pos - (ps.getD j default).pos)
                    / ((ps.getD i default).pos - (ps.getD j default).pos).length) } := by
    rw [hres]
    exact getD_set_self _ j _ _ (by simpa using hj)
  have hgi : (collideTwoParticles ps i j).getD i default
      = { ps.getD i default with
            pos := (ps.getD i default).pos
              + (((ps.getD j default).radius
                    / ((ps.getD i default).radius + (ps.getD j default).radius))
                  * (0.75 * (((ps.getD i default).radius + (ps.getD j default).radius)
                      - ((ps.getD i default).pos - (ps.getD j default).pos).length)))
                • (((ps.getD i default).pos - (ps.getD j default).pos)
                    / ((ps.getD i default).pos - (ps.getD j default).pos).length) } := by
    rw [hres, getD_set_ne _ j i _ _ (Ne.symm hij)]
    exact getD_set_self _ i _ _ hi
  exact ⟨by rw [hgi], by rw [hgj], by rw [hgi], by rw [hgj]⟩

/-! ## C1: pairwise displacement formula and asymmetry -/

/-- C1: for an overlapping pair (`0 < d < r1 + r2`), one call to
`collideTwoParticles` displaces particle 1 by
`(r2/(r1+r2)) · 0.75 · (r1+r2−d) · n` and particle 2 by the negated
`r1`-share, with `n = (pos1 − pos2)/d`; the displacement magnitudes are in
the ratio `r2 : r1`, so the larger particle moves strictly less. -/
theorem claim_C1 (ps : List ParticleR) (i j : ℕ) (hij : i ≠ j)
    (hi : i < ps.length) (hj : j < ps.length)
    (p1 p2 : ParticleR) (hp1 : p1 = ps.getD i default) (hp2 : p2 = ps.getD j default)
    (d : ℝ) (hd : d = (p1.pos - p2.pos).length)
    (hd0 : 0 < d) (hlt : d < p1.radius + p2.radius)
    (hr1 : 0 < p1.radius) (hr2 : 0 < p2.radius) :
    ((collideTwoParticles ps i j).getD i default).pos
        = p1.pos + ((p2.radius / (p1.radius + p2.radius))
            * (0.75 * (p1.radius + p2.radius - d))) • ((p1.pos - p2.pos) / d)
      ∧ ((collideTwoParticles ps i j).getD j default).pos
        = p2.pos - ((p1.radius / (p1.radius + p2.radius))
            * (0.75 * (p1.radius + p2.radius - d))) • ((p1.pos - p2.pos) / d)
      ∧ p1.radius * (((collideTwoParticles ps i j).getD i default).pos - p1.pos).length
        = p2.radius * (((collideTwoParticles ps i j).getD j default).pos - p2.pos).length
      ∧ (p2.radius < p1.radius →
          (((collideTwoParticles ps i j).getD i default).pos - p1.pos).length
            < (((collideTwoParticles ps i j).getD j default).pos - p2.pos).length) := by
  subst hp1
  subst hp2
  subst hd
  obtain ⟨e1, e2, _, _⟩ := collide_pos_branch ps i j hij hi hj hlt
  have hs : (0 : ℝ) < (ps.getD i default).radius + (ps.getD j default).radius := by linarith
  have hk : (0 : ℝ) < 0.75 * ((ps.getD i default).radius + (ps.getD j default).radius
      - ((ps.getD i default).pos - (ps.getD j default).pos).length) := by
    have : (0 : ℝ) < (ps.getD i default).radius + (ps.getD j default).radius
        - ((ps.getD i default).pos - (ps.getD j default).pos).length := by linarith
    nlinarith
  have hn : (((ps.getD i default).pos - (ps.getD j default).pos)
      / ((ps.getD i default).pos - (ps.getD j default).pos).length).length = 1 := by
    rw [Vec2R.length_hdiv _ _ hd0]
    exact div_self (ne_of_gt hd0)
  have hc1 : (0 : ℝ) < ((ps.getD j default).radius
      / ((ps.getD i default).radius + (ps.getD j default).radius))
        * (0.75 * ((ps.getD i default).radius + (ps.getD j default).radius
            - ((ps.getD i default).pos - (ps.getD j default).pos).length)) :=
    mul_pos (div_pos hr2 hs) hk
  have hc2 : (0 : ℝ) < ((ps.getD i default).radius
      / ((ps.getD i default).radius + (ps.getD j default).radius))
        * (0.75 * ((ps.getD i default).radius + (ps.getD j default).radius
            - ((ps.getD i default).pos - (ps.getD j default).pos).length)) :=
    mul_pos (div_pos hr1 hs) hk
  have hl1 : (((collideTwoParticles ps i j).getD i default).pos
      - (ps.getD i default).pos).length
      = ((ps.getD j default).radius
          / ((ps.getD i default).radius + (ps.getD j default).radius))
        * (0.75 * ((ps.getD i default).radius + (ps.getD j default).radius
            - ((ps.getD i default).pos - (ps.getD j default).pos).length)) := by
    rw [e1, Vec2R.add_sub_cancel, Vec2R.length_smul, hn, mul_one, abs_of_pos hc1]
  have hl2 : (((collideTwoParticles ps i j).getD j default).pos
      - (ps.getD j default).pos).length
      = ((ps.getD i default).radius
          / ((ps.getD i default).radius + (ps.getD j default).radius))
        * (0.75 * ((ps.getD i default).radius + (ps.getD j default).radius
            - ((ps.getD i default).pos - (ps.getD j default).pos).length)) := by
    rw [e2]
    have : (ps.getD j default).pos
        - (((ps.getD i default).radius
            / ((ps.getD i default).radius + (ps.getD j default).radius))
          * (0.75 * ((ps.getD i default).radius + (ps.getD j default).radius
              - ((ps.getD i default).pos - (ps.getD j default).pos).length)))
          • (((ps.getD i default).pos - (ps.getD j default).pos)
              / ((ps.getD i default).pos - (ps.getD j default).pos).length)
        - (ps.getD j default).pos
        = (-1 : ℝ) • ((((ps.getD i default).radius
            / ((ps.getD i default).radius + (ps.getD j default).radius))
          * (0.75 * ((ps.getD i default).radius + (ps.getD j default).radius
              - ((ps.getD i default).pos - (ps.getD j default).pos).length)))
          • (((ps.getD i default).pos - (ps.getD j default).pos)
              / ((ps.getD i default).pos - (ps.getD j default).pos).length)) :=
      Vec2R.sub_sub_self _ _
    rw [this, Vec2R.length_smul, Vec2R.length_smul, hn, mul_one, abs_of_pos hc2]
    norm_num
  refine ⟨e1, e2, ?_, ?_⟩
  · rw [hl1, hl2]; ring1
  · intro h21
    rw [hl1, hl2]
    exact mul_lt_mul_of_pos_right ((div_lt_div_right hs).mpr h21) hk

/-- Witness for C1 at radii `r1 = 20`, `r2 = 5`, centers `(15,0)` and
`(0,0)` (so `d = 15 < 25`): particle 1 moves to `(33/2, 0)` and particle 2
to `(-6, 0)` — the big particle moves by `3/2`, the small one by `6`. -/
theorem claim_C1_witness :
    ((collideTwoParticles [⟨⟨15, 0⟩, ⟨15, 0⟩, ⟨0, 0⟩, 20⟩, ⟨⟨0, 0⟩, ⟨0, 0⟩, ⟨0, 0⟩, 5⟩]
        0 1).getD 0 default).pos = (⟨33 / 2, 0⟩ : Vec2R)
      ∧ ((collideTwoParticles [⟨⟨15, 0⟩, ⟨15, 0⟩, ⟨0, 0⟩, 20⟩, ⟨⟨0, 0⟩, ⟨0, 0⟩, ⟨0, 0⟩, 5⟩]
        0 1).getD 1 default).pos = (⟨-6, 0⟩ : Vec2R) := by
  have hd : (15 : ℝ)
      = ((([⟨⟨15, 0⟩, ⟨15, 0⟩, ⟨0, 0⟩, 20⟩,
            ⟨⟨0, 0⟩, ⟨0, 0⟩, ⟨0, 0⟩, 5⟩] : List ParticleR).getD 0 default).pos
          - (([⟨⟨15, 0⟩, ⟨15, 0⟩, ⟨0, 0⟩, 20⟩,
            ⟨⟨0, 0⟩, ⟨0, 0⟩, ⟨0, 0⟩, 5⟩] : List ParticleR).getD 1 default).pos).length := by
    show (15 : ℝ) = Vec2R.length ⟨15 - 0, 0 - 0⟩
    unfold Vec2R.length
    rw [show ((15 : ℝ) - 0) ^ 2 + ((0 : ℝ) - 0) ^ 2 = 15 ^ 2 by norm_num,
      Real.sqrt_sq (by norm_num)]
  have h := claim_C1 [⟨⟨15, 0⟩, ⟨15, 0⟩, ⟨0, 0⟩, 20⟩, ⟨⟨0, 0⟩, ⟨0, 0⟩, ⟨0, 0⟩, 5⟩] 0 1
    (by omega) (by simp) (by simp) _ _ rfl rfl 15 hd (by norm_num) (by norm_num)
    (by norm_num) (by norm_num)
  refine ⟨?_, ?_⟩
  · rw [h.1]
    apply Vec2R.ext <;> simp <;> norm_num
  · rw [h.2.1]
    apply Vec2R.ext <;> simp <;> norm_num

/-! ## C10: radius-weighted position sum is preserved; non-overlap is a no-op -/

/-- C10: `collideTwoParticles` preserves the radius-weighted sum of the two
positions (the radius-as-mass center of mass), and acts as the identity when
the pair does not overlap (`d ≥ r1 + r2`) or the two indices are equal. -/
theorem claim_C10 (ps : List ParticleR) (i j : ℕ) (hi : i < ps.length)
    (hj : j < ps.length) :
    (i ≠ j →
      (ps.getD i default).radius • ((collideTwoParticles ps i j).getD i default).pos
          + (ps.getD j default).radius • ((collideTwoParticles ps i j).getD j default).pos
        = (ps.getD i default).radius • (ps.getD i default).pos
          + (ps.getD j default).radius • (ps.getD j default).pos)
      ∧ ((¬(((ps.getD i default).pos - (ps.getD j default).pos).length
            < (ps.getD i default).radius + (ps.getD j default).radius) ∨ i = j) →
          collideTwoParticles ps i j = ps) := by
  constructor
  · intro hij
    by_cases hlt : ((ps.getD i default).pos - (ps.getD j default).pos).length
        < (ps.getD i default).radius + (ps.getD j default).radius
    · obtain ⟨e1, e2, _, _⟩ := collide_pos_branch ps i j hij hi hj hlt
      rw [e1, e2]
      apply Vec2R.ext <;> simp <;> ring
    · have hid : collideTwoParticles ps i j = ps := by
        simp only [collideTwoParticles, if_neg hij]
        rw [if_neg hlt]
      rw [hid]
  · intro h
    rcases h with hnlt | heq
    · by_cases hij : i = j
      · simp only [collideTwoParticles, if_pos hij]
      · simp only [collideTwoParticles, if_neg hij]
        rw [if_neg hnlt]
    · simp only [collideTwoParticles, if_pos heq]

/-- Witness for C10: at radii 20 and 5 with centers `(15,0)`, `(0,0)` the
weighted sum `20·pos1 + 5·pos2` is unchanged by the resolution; a separated
pair (centers `(100,0)`, `(0,0)`, radii 1 and 2) is left untouched, as is a
self-pair. -/
theorem claim_C10_witness :
    ((20 : ℝ) • ((collideTwoParticles
          [⟨⟨15, 0⟩, ⟨15, 0⟩, ⟨0, 0⟩, 20⟩, ⟨⟨0, 0⟩, ⟨0, 0⟩, ⟨0, 0⟩, 5⟩] 0 1).getD
            0 default).pos
        + (5 : ℝ) • ((collideTwoParticles
          [⟨⟨15, 0⟩, ⟨15, 0⟩, ⟨0, 0⟩, 20⟩, ⟨⟨0, 0⟩, ⟨0, 0⟩, ⟨0, 0⟩, 5⟩] 0 1).getD
            1 default).pos
        = (20 : ℝ) • (⟨15, 0⟩ : Vec2R) + (5 : ℝ) • (⟨0, 0⟩ : Vec2R))
      ∧ collideTwoParticles
          [⟨⟨100, 0⟩, ⟨100, 0⟩, ⟨0, 0⟩, 1⟩, ⟨⟨0, 0⟩, ⟨0, 0⟩, ⟨0, 0⟩, 2⟩] 0 1
        = [⟨⟨100, 0⟩, ⟨100, 0⟩, ⟨0, 0⟩, 1⟩, ⟨⟨0, 0⟩, ⟨0, 0⟩, ⟨0, 0⟩, 2⟩]
      ∧ collideTwoParticles
          [⟨⟨15, 0⟩, ⟨15, 0⟩, ⟨0, 0⟩, 20⟩, ⟨⟨0, 0⟩, ⟨0, 0⟩, ⟨0, 0⟩, 5⟩] 0 0
        = [⟨⟨15, 0⟩, ⟨15, 0⟩, ⟨0, 0⟩, 20⟩, ⟨⟨0, 0⟩, ⟨0, 0⟩, ⟨0, 0⟩, 5⟩] := by
  have hfar : ¬((([⟨⟨100, 0⟩, ⟨100, 0⟩, ⟨0, 0⟩, 1⟩,
          ⟨⟨0, 0⟩, ⟨0, 0⟩, ⟨0, 0⟩, 2⟩] : List ParticleR).getD 0 default).pos
        - (([⟨⟨100, 0⟩, ⟨100, 0⟩, ⟨0, 0⟩, 1⟩,
          ⟨⟨0, 0⟩, ⟨0, 0⟩, ⟨0, 0⟩, 2⟩] : List ParticleR).getD 1 default).pos).length
      < (([⟨⟨100, 0⟩, ⟨100, 0⟩, ⟨0, 0⟩, 1⟩,
          ⟨⟨0, 0⟩, ⟨0, 0⟩, ⟨0, 0⟩, 2⟩] : List ParticleR).getD 0 default).radius
        + (([⟨⟨100, 0⟩, ⟨100, 0⟩, ⟨0, 0⟩, 1⟩,
          ⟨⟨0, 0⟩, ⟨0, 0⟩, ⟨0, 0⟩, 2⟩] : List ParticleR).getD 1 default).radius := by
    have hlen : ((([⟨⟨100, 0⟩, ⟨100, 0⟩, ⟨0, 0⟩, 1⟩,
          ⟨⟨0, 0⟩, ⟨0, 0⟩, ⟨0, 0⟩, 2⟩] : List ParticleR).getD 0 default).pos
        - (([⟨⟨100, 0⟩, ⟨100, 0⟩, ⟨0, 0⟩, 1⟩,
          ⟨⟨0, 0⟩, ⟨0, 0⟩, ⟨0, 0⟩, 2⟩] : List ParticleR).getD 1 default).pos).length
        = 100 := by
      show Vec2R.length ⟨100 - 0, 0 - 0⟩ = 100
      unfold Vec2R.length
      rw [show ((100 : ℝ) - 0) ^ 2 + ((0 : ℝ) - 0) ^ 2 = 100 ^ 2 by norm_num,
        Real.sqrt_sq (by norm_num)]
    rw [hlen]
    show ¬(100 : ℝ) < 1 + 2
    norm_num
  have h1 := claim_C10 [⟨⟨15, 0⟩, ⟨15, 0⟩, ⟨0, 0⟩, 20⟩, ⟨⟨0, 0⟩, ⟨0, 0⟩, ⟨0, 0⟩, 5⟩]
    0 1 (by simp) (by simp)
  have h2 := claim_C10 [⟨⟨100, 0⟩, ⟨100, 0⟩, ⟨0, 0⟩, 1⟩, ⟨⟨0, 0⟩, ⟨0, 0⟩, ⟨0, 0⟩, 2⟩]
    0 1 (by simp) (by simp)
  have h3 := claim_C10 [⟨⟨15, 0⟩, ⟨15, 0⟩, ⟨0, 0⟩, 20⟩, ⟨⟨0, 0⟩, ⟨0, 0⟩, ⟨0, 0⟩, 5⟩]
    0 0 (by simp) (by simp)
  exact ⟨h1.1 (by omega), h2.2 (Or.inl hfar), h3.2 (Or.inr rfl)⟩

/-! ## C2: coincident centers reach the division by zero -/

/-- C2 fails on the code: at coincident centers the `p1_i == p2_i` early
return is not taken, the `distanceBetweenCenters < sumOfRadii` branch is
entered with `distanceBetweenCenters = 0`, and the code divides
`collisionAxis` by that zero distance — there is no epsilon floor and no
skip.  (In IEEE float arithmetic `0/0` makes the normal, and then both
positions, NaN.) -/
theorem claim_C2_divzero :
    collideEntersDivisionByZero
      [⟨⟨1, 1⟩, ⟨1, 1⟩, ⟨0, 0⟩, 1⟩, ⟨⟨1, 1⟩, ⟨1, 1⟩, ⟨0, 0⟩, 2⟩] 0 1 := by
  unfold collideEntersDivisionByZero
  have hv : ((([⟨⟨1, 1⟩, ⟨1, 1⟩, ⟨0, 0⟩, 1⟩,
        ⟨⟨1, 1⟩, ⟨1, 1⟩, ⟨0, 0⟩, 2⟩] : List ParticleR).getD 0 default).pos
      - (([⟨⟨1, 1⟩, ⟨1, 1⟩, ⟨0, 0⟩, 1⟩,
        ⟨⟨1, 1⟩, ⟨1, 1⟩, ⟨0, 0⟩, 2⟩] : List ParticleR).getD 1 default).pos).length = 0 := by
    show Vec2R.length ⟨1 - 1, 1 - 1⟩ = 0
    unfold Vec2R.length
    norm_num
  refine ⟨by omega, hv, ?_⟩
  rw [hv]
  show (0 : ℝ) < 1 + 2
  norm_num

/-! ## C7: the fixed-grid strategy and duplicate pair tests -/

theorem getD_mem {α : Type} (l : List α) (i : ℕ) (d : α) (h : i < l.length) :
    l.getD i d ∈ l := by
  induction l generalizing i with
  | nil => simp at h
  | cons a t ih =>
    cases i with
    | zero => exact List.mem_cons_self _ _
    | succ k => exact List.mem_cons_of_mem _ (ih k (by simpa using h))

theorem cell_lt (cx cy ncx ncy : ℕ) (hx : cx < ncx) (hy : cy < ncy) :
    cy * ncx + cx < ncx * ncy := by
  calc cy * ncx + cx < cy * ncx + ncx := by omega
    _ = (cy + 1) * ncx := by ring
    _ ≤ ncy * ncx := Nat.mul_le_mul_right _ (by omega)
    _ = ncx * ncy := Nat.mul_comm _ _

theorem memberCells_nodup (cw : ℚ) (ncx ncy : ℕ) (p : Particle)
    (hx : aabbCellX cw p < ncx) :
    (memberCells cw ncx ncy p).Nodup := by
  have hb : (aabbCellY cw p + 1) * ncx + aabbCellX cw p
      = aabbCellY cw p * ncx + aabbCellX cw p + ncx := by ring
  by_cases hN : inNorth cw ncy p <;> by_cases hE : inEast cw ncx p <;>
    simp only [memberCells, hN, hE, and_self, and_true, true_and, and_false, false_and,
      if_true, if_false, List.append_nil, List.nil_append, List.cons_append,
      List.singleton_append]
  · have h2 : 2 ≤ ncx := by have := hE.1; omega
    rw [hb]
    simp only [List.nodup_cons, List.mem_cons, List.mem_singleton, List.not_mem_nil,
      List.nodup_nil, not_false_eq_true, and_true, List.mem_nil_iff, or_false]
    omega
  · have h1 : 1 ≤ ncx := by omega
    rw [hb]
    simp only [List.nodup_cons, List.mem_singleton, List.not_mem_nil, List.nodup_nil,
      not_false_eq_true, and_true, List.mem_nil_iff, or_false]
    omega
  · have h2 : 2 ≤ ncx := by have := hE.1; omega
    simp only [List.nodup_cons, List.mem_singleton, List.not_mem_nil, List.nodup_nil,
      not_false_eq_true, and_true, List.mem_nil_iff, or_false]
    omega
  · exact List.nodup_singleton _

theorem memberCells_lt (cw : ℚ) (ncx ncy : ℕ) (p : Particle)
    (hx : aabbCellX cw p < ncx) (hy : aabbCellY cw p < ncy) :
    ∀ c ∈ memberCells cw ncx ncy p, c < ncx * ncy := by
  intro c hc
  by_cases hN : inNorth cw ncy p <;> by_cases hE : inEast cw ncx p <;>
    simp only [memberCells, hN, hE, and_self, and_true, true_and, and_false, false_and,
      if_true, if_false, List.append_nil, List.nil_append, List.cons_append,
      List.singleton_append, List.mem_cons, List.mem_singleton, List.not_mem_nil,
      or_false] at hc
  · rcases hc with h | h | h | h
    · exact h ▸ cell_lt _ _ _ _ hx hy
    · exact h ▸ cell_lt _ _ _ _ hx hN.1
    · exact h ▸ cell_lt _ _ _ _ hE.1 hN.1
    · exact h ▸ cell_lt _ _ _ _ hE.1 hy
  · rcases hc with h | h
    · exact h ▸ cell_lt _ _ _ _ hx hy
    · exact h ▸ cell_lt _ _ _ _ hx hN.1
  · rcases hc with h | h
    · exact h ▸ cell_lt _ _ _ _ hx hy
    · exact h ▸ cell_lt _ _ _ _ hE.1 hy
  · exact hc ▸ cell_lt _ _ _ _ hx hy

theorem pushCells_length (cs : List ℕ) (g : List (List ℕ)) (v : ℕ) :
    (cs.foldl (fun g2 c => g2.set c (g2.getD c [] ++ [v])) g).length = g.length := by
  induction cs generalizing g with
  | nil => rfl
  | cons c0 rest ih => rw [List.foldl_cons, ih, List.length_set]

theorem pushCells_getD (cs : List ℕ) (g : List (List ℕ)) (v : ℕ) (c : ℕ)
    (hnd : cs.Nodup) (hin : ∀ x ∈ cs, x < g.length) :
    (cs.foldl (fun g2 c2 => g2.set c2 (g2.getD c2 [] ++ [v])) g).getD c []
      = g.getD c [] ++ (if c ∈ cs then [v] else []) := by
  induction cs generalizing g with
  | nil => simp
  | cons c0 rest ih =>
    rw [List.foldl_cons]
    have hnd' := List.nodup_cons.mp hnd
    rw [ih _ hnd'.2 (fun x hx => by
      rw [List.length_set]; exact hin x (List.mem_cons_of_mem _ hx))]
    by_cases hc : c = c0
    · subst hc
      rw [getD_set_self _ _ _ _ (hin c (List.mem_cons_self _ _))]
      have hnr : c ∉ rest := hnd'.1
      simp [hnr]
    · rw [getD_set_ne _ _ _ _ _ (fun h => hc h.symm)]
      simp [List.mem_cons, hc]

theorem assignFixedGrid_length (cw : ℚ) (ncx ncy : ℕ) (ps : List Particle) :
    (assignParticlesToFixedGrid cw ncx ncy ps).length = ncx * ncy := by
  unfold assignParticlesToFixedGrid
  have h : ∀ (l : List ℕ) (g : List (List ℕ)),
      (l.foldl (fun grid p_i =>
        (memberCells cw ncx ncy (ps.getD p_i default)).foldl
          (fun g2 c => g2.set c (g2.getD c [] ++ [p_i])) grid) g).length = g.length := by
    intro l
    induction l with
    | nil => intro g; rfl
    | cons a t ih => intro g; rw [List.foldl_cons, ih, pushCells_length]
  rw [h, List.length_replicate]

theorem assignFixedGrid_getD (cw : ℚ) (ncx ncy : ℕ) (ps : List Particle)
    (hin : ∀ p ∈ ps, aabbCellX cw p < ncx ∧ aabbCellY cw p < ncy) (c : ℕ) :
    (assignParticlesToFixedGrid cw ncx ncy ps).getD c []
      = (List.range ps.length).filter
          (fun i => decide (c ∈ memberCells cw ncx ncy (ps.getD i default))) := by
  have main : ∀ k, k ≤ ps.length →
      ((List.range k).foldl (fun grid p_i =>
          (memberCells cw ncx ncy (ps.getD p_i default)).foldl
            (fun g2 c2 => g2.set c2 (g2.getD c2 [] ++ [p_i])) grid)
        (List.replicate (ncx * ncy) ([] : List ℕ))).getD c []
      = (List.range k).filter
          (fun i => decide (c ∈ memberCells cw ncx ncy (ps.getD i default))) := by
    intro k
    induction k with
    | zero =>
      intro _
      exact getD_replicate _ _ _
    | succ m ih =>
      intro hm
      have hmem := hin (ps.getD m default) (getD_mem _ _ _ (by omega))
      have hlen : ∀ x ∈ memberCells cw ncx ncy (ps.getD m default),
          x < ((List.range m).foldl (fun grid p_i =>
            (memberCells cw ncx ncy (ps.getD p_i default)).foldl
              (fun g2 c2 => g2.set c2 (g2.getD c2 [] ++ [p_i])) grid)
            (List.replicate (ncx * ncy) ([] : List ℕ))).length := by
        intro x hx
        have hfoldlen : ∀ (l : List ℕ) (g : List (List ℕ)),
            (l.foldl (fun grid p_i =>
              (memberCells cw ncx ncy (ps.getD p_i default)).foldl
                (fun g2 c2 => g2.set c2 (g2.getD c2 [] ++ [p_i])) grid) g).length
              = g.length := by
          intro l
          induction l with
          | nil => intro g; rfl
          | cons a t ih2 => intro g; rw [List.foldl_cons, ih2, pushCells_length]
        rw [hfoldlen, List.length_replicate]
        exact memberCells_lt cw ncx ncy _ hmem.1 hmem.2 x hx
      rw [List.range_succ, List.foldl_append, List.foldl_cons, List.foldl_nil,
        pushCells_getD _ _ _ _ (memberCells_nodup cw ncx ncy _ hmem.1) hlen,
        ih (by omega), List.filter_append]
      simp [List.filter_singleton]
  exact main ps.length (le_refl _)

theorem countP_flatMap {α β : Type} (l : List α) (f : α → List β) (p : β → Bool) :
    (l.flatMap f).countP p = (l.map fun a => (f a).countP p).sum := by
  induction l with
  | nil => rfl
  | cons a t ih => simp [List.flatMap_cons, List.countP_append, ih]

theorem countP_eq_sum_map {α : Type} (l : List α) (p : α → Bool) :
    l.countP p = (l.map fun a => if p a then 1 else 0).sum := by
  induction l with
  | nil => rfl
  | cons a t ih =>
    rw [List.countP_cons, List.map_cons, List.sum_cons, ih]
    omega

theorem countP_eq_ite_of_nodup (l : List ℕ) (hnd : l.Nodup) (v : ℕ) :
    l.countP (fun s => decide (s = v)) = if v ∈ l then 1 else 0 := by
  induction l with
  | nil => rfl
  | cons a t ih =>
    have h := List.nodup_cons.mp hnd
    rw [List.countP_cons, ih h.2]
    by_cases hav : a = v
    · subst hav
      have hna : a ∉ t := h.1
      simp [hna]
    · simp only [List.mem_cons]
      have hva : ¬v = a := fun hv => hav hv.symm
      simp [hav, hva]

theorem cellPairs_countP (l : List ℕ) (hnd : l.Nodup) (i j : ℕ) (hij : i ≠ j) :
    (cellPairs l).countP
        (fun q => decide ((q.1 = i ∧ q.2 = j) ∨ (q.1 = j ∧ q.2 = i)))
      = if i ∈ l ∧ j ∈ l then 1 else 0 := by
  induction l with
  | nil => simp [cellPairs]
  | cons x xs ih =>
    have h := List.nodup_cons.mp hnd
    rw [cellPairs, List.countP_append, List.countP_map, ih h.2]
    have hco : ((fun q : ℕ × ℕ => decide ((q.1 = i ∧ q.2 = j) ∨ (q.1 = j ∧ q.2 = i)))
        ∘ fun p2 => (x, p2)) = fun a => decide ((x = i ∧ a = j) ∨ (x = j ∧ a = i)) := rfl
    rw [hco]
    by_cases hxi : x = i
    · have hxj : ¬x = j := fun hh => hij (hxi.symm.trans hh)
      have hji : ¬j = i := fun hh => hij hh.symm
      have hcg : (xs.countP fun a => decide ((x = i ∧ a = j) ∨ (x = j ∧ a = i)))
          = xs.countP fun s => decide (s = j) := by
        apply List.countP_congr
        intro a _
        simp [hxi, hxj, hij]
      rw [hcg, countP_eq_ite_of_nodup xs h.2 j]
      have hni : i ∉ xs := by rw [← hxi]; exact h.1
      simp only [List.mem_cons]
      by_cases hjxs : j ∈ xs <;> simp [hjxs, hni, hxi, hji]
    · by_cases hxj : x = j
      · have hij' : ¬i = j := hij
        have hix : ¬i = j := hij
        have hji : ¬j = i := fun hh => hij hh.symm
        have hcg : (xs.countP fun a => decide ((x = i ∧ a = j) ∨ (x = j ∧ a = i)))
            = xs.countP fun s => decide (s = i) := by
          apply List.countP_congr
          intro a _
          simp [hxi, hxj, hji]
        rw [hcg, countP_eq_ite_of_nodup xs h.2 i]
        have hnj : j ∉ xs := by rw [← hxj]; exact h.1
        simp only [List.mem_cons]
        by_cases hixs : i ∈ xs <;> simp [hixs, hnj, hxj, hij]
      · have hcg : (xs.countP fun a => decide ((x = i ∧ a = j) ∨ (x = j ∧ a = i))) = 0 := by
          rw [List.countP_eq_zero]
          intro a _
          simp [hxi, hxj]
        rw [hcg]
        have h1 : ¬i = x := fun hh => hxi hh.symm
        have h2 : ¬j = x := fun hh => hxj hh.symm
        simp only [List.mem_cons]
        simp [h1, h2]

theorem sum_map_range_mul (g : ℕ → ℕ) (ncx ncy : ℕ) :
    ((List.range ncy).map fun y => ((List.range ncx).map fun x => g (y * ncx + x)).sum).sum
      = ((List.range (ncx * ncy)).map g).sum := by
  induction ncy with
  | zero => rfl
  | succ m ih =>
    rw [List.range_succ, List.map_append, List.sum_append, ih]
    have hsz : ncx * (m + 1) = ncx * m + ncx := by ring
    rw [hsz, List.range_add, List.map_append, List.sum_append, List.map_map]
    simp only [List.map_cons, List.map_nil, List.sum_cons, List.sum_nil, add_zero]
    congr 1
    refine congrArg List.sum ?_
    apply List.map_congr_left
    intro x _
    simp [Function.comp, Nat.mul_comm]

/-- C7, amended: in the fixed-grid strategy pairs are only tested within a
single cell, and an unordered pair of distinct particle indices is passed to
`collideTwoParticles` exactly once per grid cell that contains both
particles — not at most once per pass, since both particles of a pair may
share several cells. -/
theorem claim_C7_amended (cw : ℚ) (ncx ncy : ℕ) (ps : List Particle)
    (hin : ∀ p ∈ ps, aabbCellX cw p < ncx ∧ aabbCellY cw p < ncy)
    (i j : ℕ) (hij : i ≠ j) :
    (solveGridCollisionsPairs ncx ncy (assignParticlesToFixedGrid cw ncx ncy ps)).countP
        (fun q => decide ((q.1 = i ∧ q.2 = j) ∨ (q.1 = j ∧ q.2 = i)))
      = (List.range (ncx * ncy)).countP
          (fun c => decide (i ∈ (assignParticlesToFixedGrid cw ncx ncy ps).getD c []
            ∧ j ∈ (assignParticlesToFixedGrid cw ncx ncy ps).getD c [])) := by
  have hcell : ∀ c, (cellPairs
        ((assignParticlesToFixedGrid cw ncx ncy ps).getD c [])).countP
        (fun q => decide ((q.1 = i ∧ q.2 = j) ∨ (q.1 = j ∧ q.2 = i)))
      = if i ∈ (assignParticlesToFixedGrid cw ncx ncy ps).getD c []
          ∧ j ∈ (assignParticlesToFixedGrid cw ncx ncy ps).getD c [] then 1 else 0 := by
    intro c
    have hnd : ((assignParticlesToFixedGrid cw ncx ncy ps).getD c []).Nodup := by
      rw [assignFixedGrid_getD cw ncx ncy ps hin]
      exact List.Nodup.filter _ (List.nodup_range _)
    exact cellPairs_countP _ hnd i j hij
  unfold solveGridCollisionsPairs
  rw [countP_flatMap]
  have hinner : ∀ y ∈ List.range ncy,
      ((List.range ncx).flatMap fun x =>
        cellPairs ((assignParticlesToFixedGrid cw ncx ncy ps).getD (y * ncx + x) [])).countP
          (fun q => decide ((q.1 = i ∧ q.2 = j) ∨ (q.1 = j ∧ q.2 = i)))
      = ((List.range ncx).map fun x =>
          if i ∈ (assignParticlesToFixedGrid cw ncx ncy ps).getD (y * ncx + x) []
            ∧ j ∈ (assignParticlesToFixedGrid cw ncx ncy ps).getD (y * ncx + x) []
          then 1 else 0).sum := by
    intro y _
    rw [countP_flatMap]
    refine congrArg List.sum (List.map_congr_left ?_)
    intro x _
    exact hcell _
  rw [List.map_congr_left hinner,
    sum_map_range_mul (fun c =>
      if i ∈ (assignParticlesToFixedGrid cw ncx ncy ps).getD c []
        ∧ j ∈ (assignParticlesToFixedGrid cw ncx ncy ps).getD c [] then 1 else 0) ncx ncy,
    countP_eq_sum_map]
  refine congrArg List.sum (List.map_congr_left ?_)
  intro c _
  by_cases hm : i ∈ (assignParticlesToFixedGrid cw ncx ncy ps).getD c []
      ∧ j ∈ (assignParticlesToFixedGrid cw ncx ncy ps).getD c [] <;>
    simp [hm]

/-- C7 is false as stated: with `cell_width = 10` on a 4×4 grid, the two
overlapping particles of radius 4 at `(9,4)` and `(11,4)` both straddle the
same vertical cell boundary, are both assigned to cells 0 and 1, and the
unordered pair `{0, 1}` is passed to `collideTwoParticles` twice in one
fixed-grid pass — not at most once. -/
theorem claim_C7_counterexample :
    (solveGridCollisionsPairs 4 4 (assignParticlesToFixedGrid 10 4 4
        [⟨⟨9, 4⟩, ⟨9, 4⟩, ⟨0, 0⟩, 4⟩, ⟨⟨11, 4⟩, ⟨11, 4⟩, ⟨0, 0⟩, 4⟩])).countP
      (fun q => decide ((q.1 = 0 ∧ q.2 = 1) ∨ (q.1 = 1 ∧ q.2 = 0))) = 2
    ∧ (((⟨⟨9, 4⟩, ⟨9, 4⟩, ⟨0, 0⟩, 4⟩ : Particle).pos.x
          - (⟨⟨11, 4⟩, ⟨11, 4⟩, ⟨0, 0⟩, 4⟩ : Particle).pos.x) ^ 2
        + ((⟨⟨9, 4⟩, ⟨9, 4⟩, ⟨0, 0⟩, 4⟩ : Particle).pos.y
          - (⟨⟨11, 4⟩, ⟨11, 4⟩, ⟨0, 0⟩, 4⟩ : Particle).pos.y) ^ 2
        < ((⟨⟨9, 4⟩, ⟨9, 4⟩, ⟨0, 0⟩, 4⟩ : Particle).radius
          + (⟨⟨11, 4⟩, ⟨11, 4⟩, ⟨0, 0⟩, 4⟩ : Particle).radius) ^ 2) := by
  have hg : assignParticlesToFixedGrid 10 4 4
      [⟨⟨9, 4⟩, ⟨9, 4⟩, ⟨0, 0⟩, 4⟩, ⟨⟨11, 4⟩, ⟨11, 4⟩, ⟨0, 0⟩, 4⟩]
      = [[0, 1], [0, 1], [], [], [], [], [], [], [], [], [], [], [], [], [], []] := by
    norm_num [assignParticlesToFixedGrid, memberCells, inNorth, inEast, aabbCellX,
      aabbCellY, List.range_succ, List.replicate]
  constructor
  · rw [hg]
    norm_num [solveGridCollisionsPairs, cellPairs, List.range_succ]
  · norm_num

/-- Witness for the amended C7 at the counterexample configuration: the
pair `{0, 1}` is passed once per shared cell. -/
theorem claim_C7_witness :
    (solveGridCollisionsPairs 4 4 (assignParticlesToFixedGrid 10 4 4
        [⟨⟨9, 4⟩, ⟨9, 4⟩, ⟨0, 0⟩, 4⟩, ⟨⟨11, 4⟩, ⟨11, 4⟩, ⟨0, 0⟩, 4⟩])).countP
      (fun q => decide ((q.1 = 0 ∧ q.2 = 1) ∨ (q.1 = 1 ∧ q.2 = 0)))
    = (List.range (4 * 4)).countP
        (fun c => decide (0 ∈ (assignParticlesToFixedGrid 10 4 4
            [⟨⟨9, 4⟩, ⟨9, 4⟩, ⟨0, 0⟩, 4⟩, ⟨⟨11, 4⟩, ⟨11, 4⟩, ⟨0, 0⟩, 4⟩]).getD c []
          ∧ 1 ∈ (assignParticlesToFixedGrid 10 4 4
            [⟨⟨9, 4⟩, ⟨9, 4⟩, ⟨0, 0⟩, 4⟩, ⟨⟨11, 4⟩, ⟨11, 4⟩, ⟨0, 0⟩, 4⟩]).getD c [])) := by
  apply claim_C7_amended 10 4 4
    [⟨⟨9, 4⟩, ⟨9, 4⟩, ⟨0, 0⟩, 4⟩, ⟨⟨11, 4⟩, ⟨11, 4⟩, ⟨0, 0⟩, 4⟩]
    ?_ 0 1 (by omega)
  intro p hp
  simp only [List.mem_cons, List.not_mem_nil, or_false] at hp
  rcases hp with rfl | rfl <;> constructor <;> norm_num [aabbCellX, aabbCellY]

/-! ## C4/C8: the spatial-hash counting sort -/

theorem countsFold_length (h : Particle → ℕ) (ps : List Particle) (a : List ℕ) :
    (ps.foldl (fun a2 p => a2.set (h p) (a2.getD (h p) 0 + 1)) a).length = a.length := by
  induction ps generalizing a with
  | nil => rfl
  | cons p t ih => rw [List.foldl_cons, ih, List.length_set]

theorem countsFold_getD (h : Particle → ℕ) (ps : List Particle) (a : List ℕ) (c : ℕ)
    (hin : ∀ p ∈ ps, h p < a.length) :
    (ps.foldl (fun a2 p => a2.set (h p) (a2.getD (h p) 0 + 1)) a).getD c 0
      = a.getD c 0 + ps.countP (fun p => decide (h p = c)) := by
  induction ps generalizing a with
  | nil => simp
  | cons p t ih =>
    rw [List.foldl_cons, ih _ (fun q hq => by
      rw [List.length_set]; exact hin q (List.mem_cons_of_mem _ hq)), List.countP_cons]
    by_cases hc : h p = c
    · subst hc
      rw [getD_set_self _ _ _ _ (hin p (List.mem_cons_self _ _))]
      simp
      omega
    · rw [getD_set_ne _ _ _ _ _ hc]
      simp [hc]

theorem prefixLoop_length : ∀ (fuel i : ℕ) (a : List ℕ),
    (prefixLoop a i fuel).length = a.length := by
  intro fuel
  induction fuel with
  | zero => intro i a; rfl
  | succ m ih => intro i a; rw [prefixLoop, ih, List.length_set]

theorem prefixLoop_getD (a0 : List ℕ) : ∀ (fuel i : ℕ) (a : List ℕ),
    a.length = a0.length → 1 ≤ i → i + fuel = a0.length →
    (∀ j, j < i → a.getD j 0 = prefixVal a0 j) →
    (∀ j, i ≤ j → a.getD j 0 = a0.getD j 0) →
    ∀ j, j < a0.length → (prefixLoop a i fuel).getD j 0 = prefixVal a0 j := by
  intro fuel
  induction fuel with
  | zero =>
    intro i a _ _ hi hlow _ j hj
    exact hlow j (by omega)
  | succ m ih =>
    intro i a hlen h1 hi hlow hhigh j hj
    rw [prefixLoop]
    have hiL : i < a.length := by omega
    apply ih (i + 1) _ (by rw [List.length_set]; exact hlen) (by omega) (by omega)
    · intro k hk
      by_cases hki : k = i
      · subst hki
        rw [getD_set_self _ _ _ _ hiL]
        cases k with
        | zero => omega
        | succ m2 =>
          simp only [Nat.add_sub_cancel]
          rw [hhigh (m2 + 1) (by omega), hlow m2 (by omega)]
          show a0.getD (m2 + 1) 0 + prefixVal a0 m2 = prefixVal a0 (m2 + 1)
          rw [prefixVal]
          omega
      · rw [getD_set_ne _ _ _ _ _ (fun hh => hki hh.symm)]
        exact hlow k (by omega)
    · intro k hk
      rw [getD_set_ne _ _ _ _ _ (by omega)]
      exact hhigh k (by omega)
    · exact hj

theorem prefixVal_mono (a : List ℕ) : ∀ {j k : ℕ}, j ≤ k → prefixVal a j ≤ prefixVal a k := by
  intro j k hjk
  induction k with
  | zero => simp_all
  | succ m ih =>
    rcases Nat.lt_or_ge j (m + 1) with hlt | hge
    · calc prefixVal a j ≤ prefixVal a m := ih (by omega)
        _ ≤ prefixVal a (m + 1) := by rw [prefixVal]; omega
    · have : j = m + 1 := by omega
      subst this
      exact le_refl _

theorem getD_le_prefixVal (a : List ℕ) (j : ℕ) : a.getD j 0 ≤ prefixVal a j := by
  cases j with
  | zero => exact le_refl _
  | succ m => rw [prefixVal]; omega

theorem prefixVal_eq_sum (a : List ℕ) (m : ℕ) :
    prefixVal a m = ((List.range (m + 1)).map fun c => a.getD c 0).sum := by
  induction m with
  | zero => simp [prefixVal, List.range_succ]
  | succ k ih =>
    rw [prefixVal, ih]
    have hr : List.range (k + 1 + 1) = List.range (k + 1) ++ [k + 1] := List.range_succ (k + 1)
    rw [hr, List.map_append, List.sum_append]
    simp

theorem sum_map_add_nat {α : Type} (l : List α) (f g : α → ℕ) :
    (l.map fun a => f a + g a).sum = (l.map f).sum + (l.map g).sum := by
  induction l with
  | nil => rfl
  | cons a t ih => simp [ih]; omega

theorem sum_range_indicator (v m : ℕ) :
    ((List.range m).map fun c => if v = c then 1 else 0).sum = if v < m then 1 else 0 := by
  induction m with
  | zero => simp
  | succ k ih =>
    rw [List.range_succ, List.map_append, List.sum_append, ih]
    simp only [List.map_cons, List.map_nil, List.sum_cons, List.sum_nil, add_zero]
    by_cases hvk : v = k
    · subst hvk
      simp [Nat.lt_irrefl, Nat.lt_succ_self]
    · by_cases hlt : v < k
      · have hlt1 : v < k + 1 := by omega
        simp [hlt, hlt1, hvk]
      · have hlt1 : ¬v < k + 1 := by omega
        simp [hlt, hlt1, hvk]

theorem countP_partition {α : Type} (l : List α) (f : α → ℕ) (m : ℕ)
    (hin : ∀ x ∈ l, f x < m) :
    ((List.range m).map fun c => l.countP fun x => decide (f x = c)).sum = l.length := by
  induction l with
  | nil => simp
  | cons x t ih =>
    have hcongr : ((List.range m).map fun c => (x :: t).countP fun y => decide (f y = c))
        = (List.range m).map fun c =>
            (t.countP fun y => decide (f y = c)) + if f x = c then 1 else 0 := by
      apply List.map_congr_left
      intro c _
      rw [List.countP_cons]
      by_cases hfx : f x = c <;> simp [hfx]
    rw [hcongr, sum_map_add_nat, ih (fun y hy => hin y (List.mem_cons_of_mem _ hy)),
      sum_range_indicator]
    have : f x < m := hin x (List.mem_cons_self _ _)
    simp [this, List.length_cons]

theorem countP_eq_countP_range {α : Type} [Inhabited α] (l : List α) (p : α → Bool) :
    l.countP p = (List.range l.length).countP fun i => p (l.getD i default) := by
  induction l with
  | nil => rfl
  | cons a t ih =>
    rw [List.length_cons, List.range_succ_eq_map, List.countP_cons, List.countP_cons,
      List.countP_map]
    have : ((fun i => p ((a :: t).getD i default)) ∘ fun i => i + 1)
        = fun i => p (t.getD i default) := rfl
    rw [this, ih]
    simp

theorem cntUpTo_succ (f : ℕ → ℕ) (k c : ℕ) :
    cntUpTo f (k + 1) c = cntUpTo f k c + if f k = c then 1 else 0 := by
  unfold cntUpTo
  rw [List.range_succ, List.countP_append]
  by_cases h : f k = c <;> simp [h]

theorem cntUpTo_mono (f : ℕ → ℕ) (c : ℕ) : ∀ {j k : ℕ}, j ≤ k →
    cntUpTo f j c ≤ cntUpTo f k c := by
  intro j k hjk
  induction k with
  | zero => simp_all [cntUpTo]
  | succ m ih =>
    rcases Nat.lt_or_ge j (m + 1) with hlt | hge
    · calc cntUpTo f j c ≤ cntUpTo f m c := ih (by omega)
        _ ≤ cntUpTo f (m + 1) c := by rw [cntUpTo_succ]; omega
    · have : j = m + 1 := by omega
      subst this
      exact le_refl _

theorem cntUpTo_self_pos (f : ℕ → ℕ) (i c : ℕ) (hc : f i = c) :
    1 ≤ cntUpTo f (i + 1) c := by
  unfold cntUpTo
  exact List.countP_pos_iff.mpr ⟨i, List.mem_range.mpr (by omega), by simp [hc]⟩

theorem scatter_invariant (f : ℕ → ℕ) (P : List ℕ) (n numCells : ℕ)
    (hP : P.length = numCells + 1)
    (hf : ∀ i, i < n → f i < numCells)
    (hslot : ∀ i, i < n → slotOf f P i < n)
    (hinj : ∀ i j, i < n → j < n → slotOf f P i = slotOf f P j → i = j) :
    ∀ k, k ≤ n →
      ((List.range k).foldl (scatterStep f) (P, List.replicate n 0)).1.length = P.length
      ∧ ((List.range k).foldl (scatterStep f) (P, List.replicate n 0)).2.length = n
      ∧ (∀ c, ((List.range k).foldl (scatterStep f) (P, List.replicate n 0)).1.getD c 0
          = P.getD c 0 - cntUpTo f k c)
      ∧ (∀ i, i < k → ((List.range k).foldl (scatterStep f)
          (P, List.replicate n 0)).2.getD (slotOf f P i) 0 = i)
      ∧ (∀ s, s < n → (∀ i, i < k → slotOf f P i ≠ s) →
          ((List.range k).foldl (scatterStep f) (P, List.replicate n 0)).2.getD s 0 = 0) := by
  intro k
  induction k with
  | zero =>
    intro _
    refine ⟨rfl, List.length_replicate _ _, ?_, ?_, ?_⟩
    · intro c
      simp [cntUpTo]
    · intro i hi
      exact absurd hi (Nat.not_lt_zero i)
    · intro s _ _
      exact getD_replicate n s 0
  | succ k ih =>
    intro hk1
    have hkn : k < n := by omega
    obtain ⟨L1, L2, L3, L4, L5⟩ := ih (by omega)
    set st := (List.range k).foldl (scatterStep f) (P, List.replicate n 0) with hst
    have hstep : (List.range (k + 1)).foldl (scatterStep f) (P, List.replicate n 0)
        = scatterStep f st k := by
      rw [List.range_succ, List.foldl_append, List.foldl_cons, List.foldl_nil, hst]
    have hs1 : (scatterStep f st k).1 = st.1.set (f k) (st.1.getD (f k) 0 - 1) := rfl
    have hs2 : (scatterStep f st k).2 = st.2.set (st.1.getD (f k) 0 - 1) k := rfl
    have hval : st.1.getD (f k) 0 - 1 = slotOf f P k := by
      rw [L3 (f k)]
      unfold slotOf
      rw [cntUpTo_succ]
      simp
      omega
    refine ⟨?_, ?_, ?_, ?_, ?_⟩
    · rw [hstep, hs1, List.length_set]
      exact L1
    · rw [hstep, hs2, List.length_set]
      exact L2
    · intro c
      rw [hstep, hs1]
      by_cases hc : c = f k
      · subst hc
        rw [getD_set_self _ _ _ _ (by rw [L1, hP]; exact Nat.lt_succ_of_lt (hf k hkn)),
          L3 (f k), cntUpTo_succ]
        simp
        omega
      · rw [getD_set_ne _ _ _ _ _ (fun hh => hc hh.symm), L3 c, cntUpTo_succ]
        have : ¬f k = c := fun hh => hc hh.symm
        simp [this]
    · intro i hi
      rw [hstep, hs2, hval]
      by_cases hik : i = k
      · subst hik
        exact getD_set_self _ _ _ _ (by rw [L2]; exact hslot i hkn)
      · rw [getD_set_ne _ _ _ _ _
          (fun hh => hik ((hinj i k (by omega) hkn hh.symm)))]
        exact L4 i (by omega)
    · intro s hs hall
      rw [hstep, hs2, hval]
      rw [getD_set_ne _ _ _ _ _ (hall k (by omega))]
      exact L5 s hs (fun i hi => hall i (by omega))

theorem hashFun_lt (cw : ℚ) (ncx ncy : ℕ) (ps : List Particle)
    (hin : ∀ p ∈ ps, cellCoord cw p.pos.x < ncx ∧ cellCoord cw p.pos.y < ncy) :
    ∀ i, i < ps.length → hashFun cw ncx ps i < ncx * ncy := by
  intro i hi
  have h := hin (ps.getD i default) (getD_mem _ _ _ hi)
  exact cell_lt _ _ _ _ h.1 h.2

theorem countsArr_length (cw : ℚ) (ncx ncy : ℕ) (ps : List Particle) :
    (countsArr cw ncx ncy ps).length = ncx * ncy + 1 := by
  unfold countsArr
  rw [countsFold_length, List.length_replicate]

theorem cntUpTo_eq_zero_of_ne (f : ℕ → ℕ) (n c : ℕ) (h : ∀ i, i < n → f i ≠ c) :
    cntUpTo f n c = 0 := by
  unfold cntUpTo
  rw [List.countP_eq_zero]
  intro i hi
  simp [h i (List.mem_range.mp hi)]

theorem countsArr_getD (cw : ℚ) (ncx ncy : ℕ) (ps : List Particle)
    (hin : ∀ p ∈ ps, cellCoord cw p.pos.x < ncx ∧ cellCoord cw p.pos.y < ncy) :
    ∀ c, (countsArr cw ncx ncy ps).getD c 0 = cntUpTo (hashFun cw ncx ps) ps.length c := by
  intro c
  by_cases hc : c < ncx * ncy + 1
  · unfold countsArr
    rw [countsFold_getD _ _ _ _ (fun p hp => by
        rw [List.length_replicate]
        exact Nat.lt_succ_of_lt (cell_lt _ _ _ _ (hin p hp).1 (hin p hp).2)),
      getD_replicate, countP_eq_countP_range]
    rw [Nat.zero_add]
    rfl
  · have h0 : (countsArr cw ncx ncy ps).getD c 0 = 0 := by
      have hlen : (countsArr cw ncx ncy ps).length = ncx * ncy + 1 :=
        countsArr_length cw ncx ncy ps
      rw [List.getD_eq_default]
      omega
    rw [h0, cntUpTo_eq_zero_of_ne]
    intro i hi
    have := hashFun_lt cw ncx ncy ps hin i hi
    omega

theorem prefixArr_length (cw : ℚ) (ncx ncy : ℕ) (ps : List Particle) :
    (prefixArr cw ncx ncy ps).length = ncx * ncy + 1 := by
  unfold prefixArr
  rw [prefixLoop_length, countsArr_length]

theorem prefixArr_getD (cw : ℚ) (ncx ncy : ℕ) (ps : List Particle) :
    ∀ c, c ≤ ncx * ncy →
      (prefixArr cw ncx ncy ps).getD c 0 = prefixVal (countsArr cw ncx ncy ps) c := by
  intro c hc
  unfold prefixArr
  have hlen := countsArr_length cw ncx ncy ps
  apply prefixLoop_getD (countsArr cw ncx ncy ps) _ 1 _ rfl (le_refl 1) (by omega)
  · intro j hj
    have hj0 : j = 0 := by omega
    subst hj0
    rfl
  · intro j _
    rfl
  · omega

theorem prefixVal_countsArr_total (cw : ℚ) (ncx ncy : ℕ) (ps : List Particle)
    (hin : ∀ p ∈ ps, cellCoord cw p.pos.x < ncx ∧ cellCoord cw p.pos.y < ncy) :
    prefixVal (countsArr cw ncx ncy ps) (ncx * ncy) = ps.length := by
  rw [prefixVal_eq_sum]
  have hcongr : ((List.range (ncx * ncy + 1)).map
        fun c => (countsArr cw ncx ncy ps).getD c 0)
      = (List.range (ncx * ncy + 1)).map
        fun c => ps.countP fun p => decide (particleHash cw ncx p = c) := by
    apply List.map_congr_left
    intro c _
    rw [countsArr_getD cw ncx ncy ps hin c, countP_eq_countP_range]
    rfl
  rw [hcongr, countP_partition]
  intro p hp
  exact Nat.lt_succ_of_lt (cell_lt _ _ _ _ (hin p hp).1 (hin p hp).2)

theorem slotOf_lt (cw : ℚ) (ncx ncy : ℕ) (ps : List Particle)
    (hin : ∀ p ∈ ps, cellCoord cw p.pos.x < ncx ∧ cellCoord cw p.pos.y < ncy) :
    ∀ i, i < ps.length →
      slotOf (hashFun cw ncx ps) (prefixArr cw ncx ncy ps) i < ps.length := by
  intro i hi
  have hh := hashFun_lt cw ncx ncy ps hin i hi
  have h1 : 1 ≤ cntUpTo (hashFun cw ncx ps) (i + 1) (hashFun cw ncx ps i) :=
    cntUpTo_self_pos _ _ _ rfl
  have h2 : cntUpTo (hashFun cw ncx ps) (i + 1) (hashFun cw ncx ps i)
      ≤ cntUpTo (hashFun cw ncx ps) ps.length (hashFun cw ncx ps i) :=
    cntUpTo_mono _ _ (by omega)
  have h3 : cntUpTo (hashFun cw ncx ps) ps.length (hashFun cw ncx ps i)
      ≤ prefixVal (countsArr cw ncx ncy ps) (hashFun cw ncx ps i) := by
    rw [← countsArr_getD cw ncx ncy ps hin]
    exact getD_le_prefixVal _ _
  have h4 : prefixVal (countsArr cw ncx ncy ps) (hashFun cw ncx ps i)
      ≤ prefixVal (countsArr cw ncx ncy ps) (ncx * ncy) :=
    prefixVal_mono _ (by omega)
  have h5 := prefixVal_countsArr_total cw ncx ncy ps hin
  have h6 := prefixArr_getD cw ncx ncy ps (hashFun cw ncx ps i) (by omega)
  unfold slotOf
  omega

theorem slotOf_lt_of_hash_lt (cw : ℚ) (ncx ncy : ℕ) (ps : List Particle)
    (hin : ∀ p ∈ ps, cellCoord cw p.pos.x < ncx ∧ cellCoord cw p.pos.y < ncy)
    (i j : ℕ) (hi : i < ps.length) (hj : j < ps.length)
    (hfij : hashFun cw ncx ps i < hashFun cw ncx ps j) :
    slotOf (hashFun cw ncx ps) (prefixArr cw ncx ncy ps) i
      < slotOf (hashFun cw ncx ps) (prefixArr cw ncx ncy ps) j := by
  have hhi := hashFun_lt cw ncx ncy ps hin i hi
  have hhj := hashFun_lt cw ncx ncy ps hin j hj
  obtain ⟨m, hm⟩ : ∃ m, hashFun cw ncx ps j = m + 1 := ⟨hashFun cw ncx ps j - 1, by omega⟩
  have hPfi := prefixArr_getD cw ncx ncy ps (hashFun cw ncx ps i) (by omega)
  have hPfj := prefixArr_getD cw ncx ncy ps (hashFun cw ncx ps j) (by omega)
  have hPVj : prefixVal (countsArr cw ncx ncy ps) (hashFun cw ncx ps j)
      = prefixVal (countsArr cw ncx ncy ps) m + (countsArr cw ncx ncy ps).getD (m + 1) 0 := by
    rw [hm, prefixVal]
  have hcnti1 : 1 ≤ cntUpTo (hashFun cw ncx ps) (i + 1) (hashFun cw ncx ps i) :=
    cntUpTo_self_pos _ _ _ rfl
  have hcnti2 : cntUpTo (hashFun cw ncx ps) (ps.length) (hashFun cw ncx ps i)
      ≤ prefixVal (countsArr cw ncx ncy ps) (hashFun cw ncx ps i) := by
    rw [← countsArr_getD cw ncx ncy ps hin]
    exact getD_le_prefixVal _ _
  have hcnti3 : cntUpTo (hashFun cw ncx ps) (i + 1) (hashFun cw ncx ps i)
      ≤ cntUpTo (hashFun cw ncx ps) ps.length (hashFun cw ncx ps i) :=
    cntUpTo_mono _ _ (by omega)
  have hcntj : cntUpTo (hashFun cw ncx ps) (j + 1) (hashFun cw ncx ps j)
      ≤ cntUpTo (hashFun cw ncx ps) ps.length (hashFun cw ncx ps j) :=
    cntUpTo_mono _ _ (by omega)
  have hcntj2 : cntUpTo (hashFun cw ncx ps) ps.length (hashFun cw ncx ps j)
      = (countsArr cw ncx ncy ps).getD (m + 1) 0 := by
    rw [countsArr_getD cw ncx ncy ps hin, hm]
  have hmono : prefixVal (countsArr cw ncx ncy ps) (hashFun cw ncx ps i)
      ≤ prefixVal (countsArr cw ncx ncy ps) m :=
    prefixVal_mono _ (by omega)
  unfold slotOf
  omega

theorem slotOf_inj (cw : ℚ) (ncx ncy : ℕ) (ps : List Particle)
    (hin : ∀ p ∈ ps, cellCoord cw p.pos.x < ncx ∧ cellCoord cw p.pos.y < ncy) :
    ∀ i j, i < ps.length → j < ps.length →
      slotOf (hashFun cw ncx ps) (prefixArr cw ncx ncy ps) i
        = slotOf (hashFun cw ncx ps) (prefixArr cw ncx ncy ps) j → i = j := by
  intro i j hi hj heq
  by_contra hne
  rcases Nat.lt_trichotomy (hashFun cw ncx ps i) (hashFun cw ncx ps j) with hf | hf | hf
  · have := slotOf_lt_of_hash_lt cw ncx ncy ps hin i j hi hj hf
    omega
  · have hsame : ∀ a b, a < ps.length → b < ps.length → a < b →
        hashFun cw ncx ps a = hashFun cw ncx ps b →
        slotOf (hashFun cw ncx ps) (prefixArr cw ncx ncy ps) a
          ≠ slotOf (hashFun cw ncx ps) (prefixArr cw ncx ncy ps) b := by
      intro a b ha hb hab hfab
      have hhb := hashFun_lt cw ncx ncy ps hin b hb
      have hc1 : cntUpTo (hashFun cw ncx ps) (b + 1) (hashFun cw ncx ps b)
          = cntUpTo (hashFun cw ncx ps) b (hashFun cw ncx ps b) + 1 := by
        rw [cntUpTo_succ]
        simp
      have hc2 : cntUpTo (hashFun cw ncx ps) (a + 1) (hashFun cw ncx ps b)
          ≤ cntUpTo (hashFun cw ncx ps) b (hashFun cw ncx ps b) :=
        cntUpTo_mono _ _ (by omega)
      have hc3 : cntUpTo (hashFun cw ncx ps) (b + 1) (hashFun cw ncx ps b)
          ≤ cntUpTo (hashFun cw ncx ps) ps.length (hashFun cw ncx ps b) :=
        cntUpTo_mono _ _ (by omega)
      have hc4 : cntUpTo (hashFun cw ncx ps) ps.length (hashFun cw ncx ps b)
          ≤ prefixVal (countsArr cw ncx ncy ps) (hashFun cw ncx ps b) := by
        rw [← countsArr_getD cw ncx ncy ps hin]
        exact getD_le_prefixVal _ _
      have hP := prefixArr_getD cw ncx ncy ps (hashFun cw ncx ps b) (by omega)
      unfold slotOf
      rw [hfab]
      omega
    rcases Nat.lt_trichotomy i j with hij | hij | hij
    · exact hsame i j hi hj hij hf heq
    · exact hne hij
    · exact hsame j i hj hi hij hf.symm heq.symm
  · have := slotOf_lt_of_hash_lt cw ncx ncy ps hin j i hj hi hf
    omega

theorem slotOf_surj (cw : ℚ) (ncx ncy : ℕ) (ps : List Particle)
    (hin : ∀ p ∈ ps, cellCoord cw p.pos.x < ncx ∧ cellCoord cw p.pos.y < ncy) :
    ∀ s, s < ps.length → ∃ i, i < ps.length ∧
      slotOf (hashFun cw ncx ps) (prefixArr cw ncx ncy ps) i = s := by
  intro s hs
  have hinj : Function.Injective (fun i : Fin ps.length =>
      (⟨slotOf (hashFun cw ncx ps) (prefixArr cw ncx ncy ps) i.1,
        slotOf_lt cw ncx ncy ps hin i.1 i.2⟩ : Fin ps.length)) := by
    intro a b hab
    exact Fin.ext (slotOf_inj cw ncx ncy ps hin a.1 b.1 a.2 b.2 (congrArg Fin.val hab))
  obtain ⟨i, hi⟩ := Finite.injective_iff_surjective.mp hinj ⟨s, hs⟩
  exact ⟨i.1, i.2, congrArg Fin.val hi⟩

theorem buildSpatialHash_inv (cw : ℚ) (ncx ncy : ℕ) (ps : List Particle)
    (hin : ∀ p ∈ ps, cellCoord cw p.pos.x < ncx ∧ cellCoord cw p.pos.y < ncy) :
    (buildSpatialHash cw ncx ncy ps).1.length = ncx * ncy + 1
    ∧ (buildSpatialHash cw ncx ncy ps).2.length = ps.length
    ∧ (∀ c, (buildSpatialHash cw ncx ncy ps).1.getD c 0
        = (prefixArr cw ncx ncy ps).getD c 0 - cntUpTo (hashFun cw ncx ps) ps.length c)
    ∧ (∀ i, i < ps.length → (buildSpatialHash cw ncx ncy ps).2.getD
        (slotOf (hashFun cw ncx ps) (prefixArr cw ncx ncy ps) i) 0 = i) := by
  have h := scatter_invariant (hashFun cw ncx ps) (prefixArr cw ncx ncy ps)
    ps.length (ncx * ncy) (prefixArr_length cw ncx ncy ps) (hashFun_lt cw ncx ncy ps hin)
    (slotOf_lt cw ncx ncy ps hin) (slotOf_inj cw ncx ncy ps hin) ps.length (le_refl _)
  exact ⟨h.1.trans (prefixArr_length cw ncx ncy ps), h.2.1, h.2.2.1, h.2.2.2.1⟩

/-- C4: after the spatial-hash build, every particle index (centers assumed
non-negative and within the grid) appears exactly once in the grouped-index
array, and every slot holding it lies in
`[offsets[h], offsets[h+1])` for `h` the linearized cell of the particle's
center at build time, where `offsets` is the post-scatter count array
returned by the build. -/
theorem claim_C4 (cw : ℚ) (ncx ncy : ℕ) (ps : List Particle)
    (hin : ∀ p ∈ ps, cellCoord cw p.pos.x < ncx ∧ cellCoord cw p.pos.y < ncy)
    (i : ℕ) (hi : i < ps.length) :
    ((List.range ps.length).countP fun s =>
        decide ((buildSpatialHash cw ncx ncy ps).2.getD s 0 = i)) = 1
    ∧ (∀ s, s < ps.length → (buildSpatialHash cw ncx ncy ps).2.getD s 0 = i →
        (buildSpatialHash cw ncx ncy ps).1.getD
            (particleHash cw ncx (ps.getD i default)) 0 ≤ s
        ∧ s < (buildSpatialHash cw ncx ncy ps).1.getD
            (particleHash cw ncx (ps.getD i default) + 1) 0) := by
  obtain ⟨hl1, hl2, hoff, hgr⟩ := buildSpatialHash_inv cw ncx ncy ps hin
  have hiff : ∀ s, s < ps.length →
      ((buildSpatialHash cw ncx ncy ps).2.getD s 0 = i ↔
        s = slotOf (hashFun cw ncx ps) (prefixArr cw ncx ncy ps) i) := by
    intro s hs
    constructor
    · intro hgd
      obtain ⟨j, hj, hsl⟩ := slotOf_surj cw ncx ncy ps hin s hs
      have hj2 := hgr j hj
      rw [hsl] at hj2
      rw [hj2] at hgd
      rw [← hsl, hgd]
    · intro hs'
      rw [hs']
      exact hgr i hi
  constructor
  · have hcongr : ((List.range ps.length).countP fun s =>
        decide ((buildSpatialHash cw ncx ncy ps).2.getD s 0 = i))
        = (List.range ps.length).countP fun s =>
            decide (s = slotOf (hashFun cw ncx ps) (prefixArr cw ncx ncy ps) i) := by
      apply List.countP_congr
      intro s hsmem
      simp only [decide_eq_true_eq]
      exact hiff s (List.mem_range.mp hsmem)
    rw [hcongr, countP_eq_ite_of_nodup _ (List.nodup_range _)]
    simp [List.mem_range, slotOf_lt cw ncx ncy ps hin i hi]
  · intro s hs hgd
    have hseq := (hiff s hs).mp hgd
    subst hseq
    rw [show particleHash cw ncx (ps.getD i default) = hashFun cw ncx ps i from rfl]
    have hh := hashFun_lt cw ncx ncy ps hin i hi
    have ho1 := hoff (hashFun cw ncx ps i)
    have ho2 := hoff (hashFun cw ncx ps i + 1)
    have hP1 := prefixArr_getD cw ncx ncy ps (hashFun cw ncx ps i) (by omega)
    have hP2 := prefixArr_getD cw ncx ncy ps (hashFun cw ncx ps i + 1) (by omega)
    have hPV2 : prefixVal (countsArr cw ncx ncy ps) (hashFun cw ncx ps i + 1)
        = prefixVal (countsArr cw ncx ncy ps) (hashFun cw ncx ps i)
          + (countsArr cw ncx ncy ps).getD (hashFun cw ncx ps i + 1) 0 := by
      rw [prefixVal]
    have hc1 := countsArr_getD cw ncx ncy ps hin (hashFun cw ncx ps i)
    have hc2 := countsArr_getD cw ncx ncy ps hin (hashFun cw ncx ps i + 1)
    have hcnt1 : 1 ≤ cntUpTo (hashFun cw ncx ps) (i + 1) (hashFun cw ncx ps i) :=
      cntUpTo_self_pos _ _ _ rfl
    have hcnt2 : cntUpTo (hashFun cw ncx ps) (i + 1) (hashFun cw ncx ps i)
        ≤ cntUpTo (hashFun cw ncx ps) ps.length (hashFun cw ncx ps i) :=
      cntUpTo_mono _ _ (by omega)
    have hle : (countsArr cw ncx ncy ps).getD (hashFun cw ncx ps i) 0
        ≤ prefixVal (countsArr cw ncx ncy ps) (hashFun cw ncx ps i) :=
      getD_le_prefixVal _ _
    have hslotdef : slotOf (hashFun cw ncx ps) (prefixArr cw ncx ncy ps) i
        = (prefixArr cw ncx ncy ps).getD (hashFun cw ncx ps i) 0
          - cntUpTo (hashFun cw ncx ps) (i + 1) (hashFun cw ncx ps i) := rfl
    omega

/-- C8: after the spatial-hash build (centers assumed non-negative and
within the grid) the final offsets array satisfies `offsets[0] = 0` and
`offsets[cell_count_x * cell_count_y] = particle_count`, and the sum of all
bucket occupancy counts `offsets[h+1] - offsets[h]` equals the particle
count. -/
theorem claim_C8 (cw : ℚ) (ncx ncy : ℕ) (ps : List Particle)
    (hin : ∀ p ∈ ps, cellCoord cw p.pos.x < ncx ∧ cellCoord cw p.pos.y < ncy) :
    (buildSpatialHash cw ncx ncy ps).1.getD 0 0 = 0
    ∧ (buildSpatialHash cw ncx ncy ps).1.getD (ncx * ncy) 0 = ps.length
    ∧ ((List.range (ncx * ncy)).map fun h =>
        (buildSpatialHash cw ncx ncy ps).1.getD (h + 1) 0
          - (buildSpatialHash cw ncx ncy ps).1.getD h 0).sum = ps.length := by
  obtain ⟨hl1, hl2, hoff, _⟩ := buildSpatialHash_inv cw ncx ncy ps hin
  have htot := prefixVal_countsArr_total cw ncx ncy ps hin
  have hcnt_top : cntUpTo (hashFun cw ncx ps) ps.length (ncx * ncy) = 0 := by
    apply cntUpTo_eq_zero_of_ne
    intro k hk
    have := hashFun_lt cw ncx ncy ps hin k hk
    omega
  have hoff_top : (buildSpatialHash cw ncx ncy ps).1.getD (ncx * ncy) 0 = ps.length := by
    rw [hoff (ncx * ncy), prefixArr_getD cw ncx ncy ps (ncx * ncy) (le_refl _),
      htot, hcnt_top]
    omega
  have hoff0 : (buildSpatialHash cw ncx ncy ps).1.getD 0 0 = 0 := by
    rw [hoff 0, prefixArr_getD cw ncx ncy ps 0 (by omega)]
    have h0 : prefixVal (countsArr cw ncx ncy ps) 0 = (countsArr cw ncx ncy ps).getD 0 0 :=
      rfl
    have hc0 := countsArr_getD cw ncx ncy ps hin 0
    omega
  refine ⟨hoff0, hoff_top, ?_⟩
  have htel : ∀ m, (∀ h, h < m →
      (buildSpatialHash cw ncx ncy ps).1.getD h 0
        ≤ (buildSpatialHash cw ncx ncy ps).1.getD (h + 1) 0) →
      ((List.range m).map fun h =>
        (buildSpatialHash cw ncx ncy ps).1.getD (h + 1) 0
          - (buildSpatialHash cw ncx ncy ps).1.getD h 0).sum
        = (buildSpatialHash cw ncx ncy ps).1.getD m 0
          - (buildSpatialHash cw ncx ncy ps).1.getD 0 0
      ∧ (buildSpatialHash cw ncx ncy ps).1.getD 0 0
        ≤ (buildSpatialHash cw ncx ncy ps).1.getD m 0 := by
    intro m
    induction m with
    | zero => intro _; simp
    | succ k ih =>
      intro hmono
      obtain ⟨ihs, ihle⟩ := ih (fun h hh => hmono h (by omega))
      have hk := hmono k (by omega)
      rw [List.range_succ, List.map_append, List.sum_append, ihs]
      simp only [List.map_cons, List.map_nil, List.sum_cons, List.sum_nil, add_zero]
      omega
  have hmono : ∀ h, h < ncx * ncy →
      (buildSpatialHash cw ncx ncy ps).1.getD h 0
        ≤ (buildSpatialHash cw ncx ncy ps).1.getD (h + 1) 0 := by
    intro h hh
    have ho1 := hoff h
    have ho2 := hoff (h + 1)
    have hP1 := prefixArr_getD cw ncx ncy ps h (by omega)
    have hP2 := prefixArr_getD cw ncx ncy ps (h + 1) (by omega)
    have hPV2 : prefixVal (countsArr cw ncx ncy ps) (h + 1)
        = prefixVal (countsArr cw ncx ncy ps) h
          + (countsArr cw ncx ncy ps).getD (h + 1) 0 := by
      rw [prefixVal]
    have hc1 := countsArr_getD cw ncx ncy ps hin h
    have hc2 := countsArr_getD cw ncx ncy ps hin (h + 1)
    have hle : (countsArr cw ncx ncy ps).getD h 0
        ≤ prefixVal (countsArr cw ncx ncy ps) h := getD_le_prefixVal _ _
    omega
  obtain ⟨hsum, _⟩ := htel (ncx * ncy) hmono
  rw [hsum, hoff_top, hoff0]
  omega

/-- Witness for C4: three particles with centers `(5,5)`, `(15,5)`, `(6,4)`
on a 2×2 grid of cell width 10 hash to cells 0, 1, 0; particle 0 appears
exactly once in the grouped array (at slot 1), inside its bucket's offset
range. -/
theorem claim_C4_witness :
    ((List.range 3).countP fun s =>
        decide ((buildSpatialHash 10 2 2
          [⟨⟨5, 5⟩, ⟨5, 5⟩, ⟨0, 0⟩, 1⟩, ⟨⟨15, 5⟩, ⟨15, 5⟩, ⟨0, 0⟩, 1⟩,
            ⟨⟨6, 4⟩, ⟨6, 4⟩, ⟨0, 0⟩, 1⟩]).2.getD s 0 = 0)) = 1
    ∧ (buildSpatialHash 10 2 2
          [⟨⟨5, 5⟩, ⟨5, 5⟩, ⟨0, 0⟩, 1⟩, ⟨⟨15, 5⟩, ⟨15, 5⟩, ⟨0, 0⟩, 1⟩,
            ⟨⟨6, 4⟩, ⟨6, 4⟩, ⟨0, 0⟩, 1⟩]).1.getD
        (particleHash 10 2 (([⟨⟨5, 5⟩, ⟨5, 5⟩, ⟨0, 0⟩, 1⟩, ⟨⟨15, 5⟩, ⟨15, 5⟩, ⟨0, 0⟩, 1⟩,
            ⟨⟨6, 4⟩, ⟨6, 4⟩, ⟨0, 0⟩, 1⟩] : List Particle).getD 0 default)) 0 ≤ 1
    ∧ 1 < (buildSpatialHash 10 2 2
          [⟨⟨5, 5⟩, ⟨5, 5⟩, ⟨0, 0⟩, 1⟩, ⟨⟨15, 5⟩, ⟨15, 5⟩, ⟨0, 0⟩, 1⟩,
            ⟨⟨6, 4⟩, ⟨6, 4⟩, ⟨0, 0⟩, 1⟩]).1.getD
        (particleHash 10 2 (([⟨⟨5, 5⟩, ⟨5, 5⟩, ⟨0, 0⟩, 1⟩, ⟨⟨15, 5⟩, ⟨15, 5⟩, ⟨0, 0⟩, 1⟩,
            ⟨⟨6, 4⟩, ⟨6, 4⟩, ⟨0, 0⟩, 1⟩] : List Particle).getD 0 default) + 1) 0 := by
  have hin : ∀ p ∈ ([⟨⟨5, 5⟩, ⟨5, 5⟩, ⟨0, 0⟩, 1⟩, ⟨⟨15, 5⟩, ⟨15, 5⟩, ⟨0, 0⟩, 1⟩,
      ⟨⟨6, 4⟩, ⟨6, 4⟩, ⟨0, 0⟩, 1⟩] : List Particle),
      cellCoord 10 p.pos.x < 2 ∧ cellCoord 10 p.pos.y < 2 := by
    intro p hp
    simp only [List.mem_cons, List.not_mem_nil, or_false] at hp
    rcases hp with rfl | rfl | rfl <;> constructor <;> norm_num [cellCoord]
  have h := claim_C4 10 2 2
    [⟨⟨5, 5⟩, ⟨5, 5⟩, ⟨0, 0⟩, 1⟩, ⟨⟨15, 5⟩, ⟨15, 5⟩, ⟨0, 0⟩, 1⟩,
      ⟨⟨6, 4⟩, ⟨6, 4⟩, ⟨0, 0⟩, 1⟩] hin 0 (by simp)
  have hb : (buildSpatialHash 10 2 2
      [⟨⟨5, 5⟩, ⟨5, 5⟩, ⟨0, 0⟩, 1⟩, ⟨⟨15, 5⟩, ⟨15, 5⟩, ⟨0, 0⟩, 1⟩,
        ⟨⟨6, 4⟩, ⟨6, 4⟩, ⟨0, 0⟩, 1⟩]).2.getD 1 0 = 0 := by
    norm_num [buildSpatialHash, hashFun, prefixArr, countsArr, particleHash, cellCoord,
      prefixLoop, scatterStep, List.range_succ, List.replicate]
  obtain ⟨hlo, hhi⟩ := h.2 1 (by simp) hb
  exact ⟨h.1, hlo, hhi⟩

/-- Witness for C8 at the same three-particle configuration: the final
offsets array starts at 0, ends at the particle count 3, and the bucket
occupancy counts sum to 3. -/
theorem claim_C8_witness :
    (buildSpatialHash 10 2 2
        [⟨⟨5, 5⟩, ⟨5, 5⟩, ⟨0, 0⟩, 1⟩, ⟨⟨15, 5⟩, ⟨15, 5⟩, ⟨0, 0⟩, 1⟩,
          ⟨⟨6, 4⟩, ⟨6, 4⟩, ⟨0, 0⟩, 1⟩]).1.getD 0 0 = 0
    ∧ (buildSpatialHash 10 2 2
        [⟨⟨5, 5⟩, ⟨5, 5⟩, ⟨0, 0⟩, 1⟩, ⟨⟨15, 5⟩, ⟨15, 5⟩, ⟨0, 0⟩, 1⟩,
          ⟨⟨6, 4⟩, ⟨6, 4⟩, ⟨0, 0⟩, 1⟩]).1.getD (2 * 2) 0 = 3
    ∧ ((List.range (2 * 2)).map fun h =>
        (buildSpatialHash 10 2 2
          [⟨⟨5, 5⟩, ⟨5, 5⟩, ⟨0, 0⟩, 1⟩, ⟨⟨15, 5⟩, ⟨15, 5⟩, ⟨0, 0⟩, 1⟩,
            ⟨⟨6, 4⟩, ⟨6, 4⟩, ⟨0, 0⟩, 1⟩]).1.getD (h + 1) 0
          - (buildSpatialHash 10 2 2
          [⟨⟨5, 5⟩, ⟨5, 5⟩, ⟨0, 0⟩, 1⟩, ⟨⟨15, 5⟩, ⟨15, 5⟩, ⟨0, 0⟩, 1⟩,
            ⟨⟨6, 4⟩, ⟨6, 4⟩, ⟨0, 0⟩, 1⟩]).1.getD h 0).sum = 3 := by
  have hin : ∀ p ∈ ([⟨⟨5, 5⟩, ⟨5, 5⟩, ⟨0, 0⟩, 1⟩, ⟨⟨15, 5⟩, ⟨15, 5⟩, ⟨0, 0⟩, 1⟩,
      ⟨⟨6, 4⟩, ⟨6, 4⟩, ⟨0, 0⟩, 1⟩] : List Particle),
      cellCoord 10 p.pos.x < 2 ∧ cellCoord 10 p.pos.y < 2 := by
    intro p hp
    simp only [List.mem_cons, List.not_mem_nil, or_false] at hp
    rcases hp with rfl | rfl | rfl <;> constructor <;> norm_num [cellCoord]
  exact claim_C8 10 2 2
    [⟨⟨5, 5⟩, ⟨5, 5⟩, ⟨0, 0⟩, 1⟩, ⟨⟨15, 5⟩, ⟨15, 5⟩, ⟨0, 0⟩, 1⟩,
      ⟨⟨6, 4⟩, ⟨6, 4⟩, ⟨0, 0⟩, 1⟩] hin
